import Mathlib

/-!
# RenderingEngine2 (Chapter3.0/Classes/RenderingEngine2.cpp)

A shallow embedding of the cone renderer: mesh generation in `Initialize`, the two
indexed draws of `Render`, the orientation animation (`UpdateAnimation`, `OnRotate`)
and the touch handlers (`OnFingerUp`, `OnFingerDown`, `OnFingerMove`).

Conventions.
* `float`/`GLfloat` values are read as exact numbers of an ordered field `F`, without
  rounding, infinities or NaN.  The animation code only needs the field operations, so it
  runs over any `F` (for instance `ℚ`); the gesture and vertex code also calls `<cmath>`,
  whose functions are the interface `CMath F`, interpreted over `ℝ` by `realCMath`.
* The touch handlers are embedded a second time over IEEE 754 binary32
  (`Binary32.OnFingerMove` and its companions), with rounding, infinities and NaN: that
  reading decides what happens at the pivot, where the exact reading has no value for the
  normalised zero vector, and whether an angle is exactly 0.
* `int` values are unbounded integers (the code never comes near the 32-bit range for
  pixel coordinates and loop counters); a store into a `GLubyte` keeps the value modulo 256.
* An iterator is the position it points at; a write through an iterator outside its vector,
  or a loop that does not stop within its fuel, yields `none`.
* The GL calls of the engine are outside the model, except the two `glDrawElements` calls
  of `Render`, which are returned as data.
-/

set_option autoImplicit false
set_option maxRecDepth 100000

namespace RenderingEngine2

/-! ## Vector types (declared in Vector.hpp) -/

/-- The class template `Vector2<T>`: `ivec2` and `vec2` are its instances at `int`, `float`. -/
structure Vector2 (T : Type) where
  x : T
  y : T
  deriving DecidableEq

/-- The class template `Vector3<T>`. -/
structure Vector3 (T : Type) where
  x : T
  y : T
  z : T
  deriving DecidableEq

/-- The class template `Vector4<T>`. -/
structure Vector4 (T : Type) where
  x : T
  y : T
  z : T
  w : T
  deriving DecidableEq

abbrev ivec2 := Vector2 Int

/-- The functions of `<cmath>` the engine calls, and the constant pi. -/
class CMath (F : Type) where
  sqrt : F → F
  acos : F → F
  sin : F → F
  cos : F → F
  pi : F

/-- The interpretation of `<cmath>` over the real numbers. -/
noncomputable instance realCMath : CMath ℝ where
  sqrt := Real.sqrt
  acos := Real.arccos
  sin := Real.sin
  cos := Real.cos
  pi := Real.pi

/-- Component-wise `operator-` of `Vector2<T>`. -/
def Vector2.sub {T : Type} [Sub T] (a b : Vector2 T) : Vector2 T :=
  ⟨a.x - b.x, a.y - b.y⟩

/-- The conversion `vec2(ivec2)`: each `int` component becomes a `float`. -/
def Vector2.toFloat {F : Type} [IntCast F] (v : ivec2) : Vector2 F :=
  ⟨(v.x : F), (v.y : F)⟩

/-- Modelled from the spec: `Vector2::Length` is declared in Vector.hpp, which is not
among the sources; it is the Euclidean length of the vector. -/
def Vector2.Length {F : Type} [Add F] [Mul F] [CMath F] (v : Vector2 F) : F :=
  CMath.sqrt (v.x * v.x + v.y * v.y)

/-- Modelled from the spec: `Vector2::Normalized` is declared in Vector.hpp, which is not
among the sources.  The spec calls it `normalize(newLocation - pivot)`, the vector scaled
to unit length: both components are multiplied by the reciprocal of the length.  This is
the exact reading, meant for vectors of non-zero length only; the spec leaves the zero
vector undefined, and `Binary32.Normalized` gives what `float` arithmetic does there. -/
def Vector2.Normalized {F : Type} [Field F] [CMath F] (v : Vector2 F) : Vector2 F :=
  let s := 1 / v.Length
  ⟨v.x * s, v.y * s⟩

/-! ## Data model -/

/-- `struct Vertex`. -/
structure Vertex (F : Type) where
  Position : Vector3 F
  Color : Vector4 F

/-- `struct Animation`; `Q` is the type `Quaternion`. -/
structure Animation (F Q : Type) where
  Start : Q
  End : Q
  Current : Q
  Elapsed : F
  Duration : F

/-- The part of Quaternion.hpp the engine calls (the header is not among the sources, so
its two functions are parameters); `operator==` is the decidable equality of `Q`. -/
structure QuaternionLib (F Q : Type) where
  CreateFromVectors : Vector3 F → Vector3 F → Q
  Slerp : Q → F → Q → Q

/-- The enumeration `DeviceOrientation` of IRenderingEngine.hpp, by the names `OnRotate`
switches over. -/
inductive DeviceOrientation where
  | DeviceOrientationUnknown
  | DeviceOrientationPortrait
  | DeviceOrientationPortraitUpsideDown
  | DeviceOrientationLandscapeLeft
  | DeviceOrientationLandscapeRight
  | DeviceOrientationFaceUp
  | DeviceOrientationFaceDown
  deriving DecidableEq

open DeviceOrientation

/-- The data members of `class RenderingEngine2` (the GL object names are left out).
`m_coneIndices` holds `GLubyte` values. -/
structure Engine (F Q : Type) where
  m_coneVertices : List (Vertex F)
  m_coneIndices : List Nat
  m_bodyIndexCount : Nat
  m_diskIndexCount : Nat
  m_animation : Animation F Q
  m_rotationAngle : F
  m_scale : F
  m_pivotPoint : ivec2

/-- `static const float AnimationDuration = 0.25f`. -/
def AnimationDuration {F : Type} [Field F] : F := 1 / 4

/-! ## Initialize: mesh generation -/

/-- `vector::resize(n)` on a vector of numbers: keeps the first `n` elements and pads
with value-initialised (zero) elements. -/
def resizeIndices (v : List Nat) (n : Nat) : List Nat :=
  v.take n ++ List.replicate (n - v.length) 0

/-- `vector<Vertex>::resize(n)`; `dflt` is a value-initialised `Vertex`. -/
def resizeVertices {F : Type} (dflt : Vertex F) (v : List (Vertex F)) (n : Nat) :
    List (Vertex F) :=
  v.take n ++ List.replicate (n - v.length) dflt

/-- The vector `m_coneIndices` together with the iterator `index` walking it. -/
structure IndexCursor where
  data : List Nat
  index : Nat
  deriving DecidableEq

/-- The statement `*index++ = v`: stores `v` as a `GLubyte` and advances the iterator. -/
def IndexCursor.put (c : IndexCursor) (v : Nat) : Option IndexCursor :=
  if c.index < c.data.length then
    some ⟨c.data.set c.index (v % 256), c.index + 1⟩
  else none

/-- The loop `for (int i = 0; i < coneSlices * 2; i += 2)` over the body triangles,
entered with loop variable `i`. -/
def bodyTriangles (coneSlices : Nat) : Nat → Nat → IndexCursor → Option IndexCursor
  | 0, _, _ => none
  | fuel + 1, i, c =>
    if i < coneSlices * 2 then do
      let c ← c.put i
      let c ← c.put ((i + 1) % (2 * coneSlices))
      let c ← c.put ((i + 3) % (2 * coneSlices))
      bodyTriangles coneSlices fuel (i + 2) c
    else some c

/-- The loop `for (int i = 1; i < coneSlices * 2 + 1; i += 2)` over the disk triangles,
entered with loop variable `i`. -/
def diskTriangles (coneSlices diskCenterIndex : Nat) : Nat → Nat → IndexCursor →
    Option IndexCursor
  | 0, _, _ => none
  | fuel + 1, i, c =>
    if i < coneSlices * 2 + 1 then do
      let c ← c.put diskCenterIndex
      let c ← c.put i
      let c ← c.put ((i + 2) % (2 * coneSlices))
      diskTriangles coneSlices diskCenterIndex fuel (i + 2) c
    else some c

/-- Modelled from the spec: the constant `TwoPi` comes from a header that is not among
the sources; the spec spaces the slices by `2π/N`. -/
def TwoPi {F : Type} [Field F] [CMath F] : F := 2 * CMath.pi

/-- A write through the iterator `vertex` of `m_coneVertices`. -/
def putVertex {F : Type} (vs : List (Vertex F)) (vertex : Nat) (v : Vertex F) :
    Option (List (Vertex F)) :=
  if vertex < vs.length then some (vs.set vertex v) else none

/-- The loop `for (float theta = 0; vertex != m_coneVertices.end() - 1; theta += dtheta)`
over the cone body, entered with iterator `vertex` and angle `theta`.  Each pass writes
the apex vertex and the rim vertex (all three coordinates and the colour of each) and
advances the iterator twice.  Returns the vector and the final iterator. -/
def coneBody {F : Type} [LinearOrderedField F] [CMath F] (coneRadius coneHeight dtheta : F) :
    Nat → List (Vertex F) → Nat → F → Option (List (Vertex F) × Nat)
  | 0, _, _, _ => none
  | fuel + 1, vs, vertex, theta =>
    if vertex ≠ vs.length - 1 then do
      let brightness : F := |CMath.sin theta|
      let color : Vector4 F := ⟨|CMath.sin theta|, |CMath.cos theta|, brightness, 1⟩
      -- Apex vertex
      let vs ← putVertex vs vertex ⟨⟨0, 1, 0⟩, color⟩
      let vertex := vertex + 1
      -- Rim
      let vs ← putVertex vs vertex
        ⟨⟨coneRadius * CMath.cos theta, 1 - coneHeight, coneRadius * CMath.sin theta⟩, color⟩
      let vertex := vertex + 1
      coneBody coneRadius coneHeight dtheta fuel vs vertex (theta + dtheta)
    else some (vs, vertex)

/-- A value-initialised `Vertex`. -/
def Vertex.zero {F : Type} [Zero F] : Vertex F := ⟨⟨0, 0, 0⟩, ⟨0, 0, 0, 0⟩⟩

/-- The number of loop passes granted to each loop of `Initialize`. -/
def loopFuel : Nat := 100

/-- `RenderingEngine2::Initialize(int width, int height)`, up to the GL calls. -/
def Initialize {F Q : Type} [LinearOrderedField F] [CMath F] (e : Engine F Q)
    (width height : Int) : Option (Engine F Q) := do
  let m_pivotPoint : ivec2 := ⟨Int.tdiv width 2, Int.tdiv height 2⟩
  let coneRadius : F := 1 / 2
  let coneHeight : F := 1866 / 1000
  let coneSlices : Nat := 40
  let dtheta : F := TwoPi / (coneSlices : F)
  let vertexCount : Nat := coneSlices * 2 + 1
  let m_coneVertices := resizeVertices Vertex.zero e.m_coneVertices vertexCount
  -- Cone's body
  let (m_coneVertices, vertex) ←
    coneBody coneRadius coneHeight dtheta loopFuel m_coneVertices 0 0
  -- Disk center
  let m_coneVertices ← putVertex m_coneVertices vertex ⟨⟨0, 1 - coneHeight, 0⟩, ⟨1, 1, 1, 1⟩⟩
  let m_bodyIndexCount : Nat := coneSlices * 3
  let m_diskIndexCount : Nat := coneSlices * 3
  let m_coneIndices := resizeIndices e.m_coneIndices (m_bodyIndexCount + m_diskIndexCount)
  let index : IndexCursor := ⟨m_coneIndices, 0⟩
  -- Body triangles
  let index ← bodyTriangles coneSlices loopFuel 0 index
  -- Disk triangles
  let diskCenterIndex : Nat := vertexCount + 1
  let index ← diskTriangles coneSlices diskCenterIndex loopFuel 1 index
  some { e with
    m_pivotPoint := m_pivotPoint
    m_coneVertices := m_coneVertices
    m_coneIndices := index.data
    m_bodyIndexCount := m_bodyIndexCount
    m_diskIndexCount := m_diskIndexCount }

/-- The constructor `RenderingEngine2()`: the vectors start empty, `m_rotationAngle(0)`,
`m_scale(1)`; the members it does not initialise keep the values of `uninit`. -/
def CreateRenderer2 {F Q : Type} [Field F] (uninit : Engine F Q) : Engine F Q :=
  { uninit with m_coneVertices := [], m_coneIndices := [], m_rotationAngle := 0, m_scale := 1 }

/-! ## Render: the two indexed draws -/

/-- The two vectors of the engine an element address can point into. -/
inductive Container where
  | coneVertices
  | coneIndices
  deriving DecidableEq

/-- The address `&v[element]` of an element of the vector `v = container`. -/
structure Address where
  container : Container
  element : Nat
  deriving DecidableEq

/-- A call `glDrawElements(GL_TRIANGLES, count, GL_UNSIGNED_BYTE, indices)`. -/
structure DrawElements where
  count : Nat
  indices : Address
  deriving DecidableEq

/-- `RenderingEngine2::Render()`: the `glDrawElements` calls it issues, in order. -/
def Render {F Q : Type} (e : Engine F Q) : List DrawElements :=
  let bodyIndices : Address := ⟨Container.coneIndices, 0⟩
  let diskIndices : Address := ⟨Container.coneVertices, e.m_bodyIndexCount⟩
  [⟨e.m_bodyIndexCount, bodyIndices⟩, ⟨e.m_diskIndexCount, diskIndices⟩]

/-- The number of elements of the vector an address points into. -/
def Container.size {F Q : Type} (e : Engine F Q) : Container → Nat
  | Container.coneVertices => e.m_coneVertices.length
  | Container.coneIndices => e.m_coneIndices.length

/-! ## Orientation animation -/

/-- `RenderingEngine2::UpdateAnimation(float timeStep)`. -/
def UpdateAnimation {F Q : Type} [LinearOrderedField F] [DecidableEq Q]
    (lib : QuaternionLib F Q) (e : Engine F Q) (timeStep : F) : Engine F Q :=
  if e.m_animation.Current = e.m_animation.End then e
  else
    let Elapsed := e.m_animation.Elapsed + timeStep
    if Elapsed ≥ AnimationDuration then
      { e with m_animation := { e.m_animation with Elapsed := Elapsed,
                                                   Current := e.m_animation.End } }
    else
      let mu := Elapsed / AnimationDuration
      { e with m_animation := { e.m_animation with
          Elapsed := Elapsed,
          Current := lib.Slerp e.m_animation.Start mu e.m_animation.End } }

/-- `RenderingEngine2::OnRotate(DeviceOrientation orientation)`. -/
def OnRotate {F Q : Type} [Field F] (lib : QuaternionLib F Q) (e : Engine F Q)
    (orientation : DeviceOrientation) : Engine F Q :=
  let direction : Vector3 F :=
    match orientation with
    | DeviceOrientationUnknown => ⟨0, 1, 0⟩
    | DeviceOrientationPortrait => ⟨0, 1, 0⟩
    | DeviceOrientationPortraitUpsideDown => ⟨0, -1, 0⟩
    | DeviceOrientationFaceDown => ⟨0, 0, -1⟩
    | DeviceOrientationFaceUp => ⟨0, 0, 1⟩
    | DeviceOrientationLandscapeLeft => ⟨1, 0, 0⟩
    | DeviceOrientationLandscapeRight => ⟨-1, 0, 0⟩
  { e with m_animation := { e.m_animation with
      Elapsed := 0,
      Start := e.m_animation.End,
      Current := e.m_animation.End,
      End := lib.CreateFromVectors ⟨0, 1, 0⟩ direction } }

/-! ## Touch handlers -/

/-- `RenderingEngine2::OnFingerUp(ivec2 location)`. -/
def OnFingerUp {F Q : Type} [Field F] (e : Engine F Q) (_location : ivec2) : Engine F Q :=
  { e with m_scale := 1 }

/-- `RenderingEngine2::OnFingerMove(ivec2 oldLocation, ivec2 newLocation)`. -/
def OnFingerMove {F Q : Type} [LinearOrderedField F] [CMath F] (e : Engine F Q)
    (_oldLocation newLocation : ivec2) : Engine F Q :=
  let direction : Vector2 F := (Vector2.toFloat (newLocation.sub e.m_pivotPoint)).Normalized
  -- Flip y axis because pixel coords increase toward the bottom
  let direction : Vector2 F := { direction with y := -direction.y }
  let m_rotationAngle : F := CMath.acos direction.y * 180 / CMath.pi
  if direction.x > 0 then { e with m_rotationAngle := -m_rotationAngle }
  else { e with m_rotationAngle := m_rotationAngle }

/-- `RenderingEngine2::OnFingerDown(ivec2 location)`. -/
def OnFingerDown {F Q : Type} [LinearOrderedField F] [CMath F] (e : Engine F Q)
    (location : ivec2) : Engine F Q :=
  let e : Engine F Q := { e with m_scale := 3 / 2 }
  OnFingerMove e location location

/-! ## Auxiliary definitions: the values the index loops store -/

/-- A run of consecutive `*index++ = v` statements. -/
def putAll : List Nat → IndexCursor → Option IndexCursor
  | [], c => some c
  | v :: vs, c => (c.put v).bind (putAll vs)

/-- The values the body loop stores, in order. -/
def bodyVals (coneSlices : Nat) : Nat → Nat → List Nat
  | 0, _ => []
  | fuel + 1, i =>
    if i < coneSlices * 2 then
      i :: (i + 1) % (2 * coneSlices) :: (i + 3) % (2 * coneSlices) ::
        bodyVals coneSlices fuel (i + 2)
    else []

/-- The values the disk loop stores, in order. -/
def diskVals (coneSlices diskCenterIndex : Nat) : Nat → Nat → List Nat
  | 0, _ => []
  | fuel + 1, i =>
    if i < coneSlices * 2 + 1 then
      diskCenterIndex :: i :: (i + 2) % (2 * coneSlices) ::
        diskVals coneSlices diskCenterIndex fuel (i + 2)
    else []

/-- The index data `Initialize` leaves in `m_coneIndices` (shown in `Initialize_ok`): the
values of the body loop, then those of the disk loop with `diskCenterIndex = 82`. -/
def coneIndexData : List Nat :=
  (bodyVals 40 loopFuel 0).map (· % 256) ++ (diskVals 40 82 loopFuel 1).map (· % 256)

/-! ## Concrete engines for the examples -/

/-- Quaternion expressions: a quaternion is named by the calls of Quaternion.hpp that
build it.  Used to run the engine on concrete inputs. -/
inductive QuatExpr (F : Type) where
  | identity : QuatExpr F
  | fromVectors (v0 v1 : Vector3 F) : QuatExpr F
  | slerp (a : QuatExpr F) (mu : F) (b : QuatExpr F) : QuatExpr F
  deriving DecidableEq

/-- The quaternion library over quaternion expressions. -/
def exprLib (F : Type) : QuaternionLib F (QuatExpr F) where
  CreateFromVectors := QuatExpr.fromVectors
  Slerp := QuatExpr.slerp

/-- An engine right after construction, the uninitialised members being zero. -/
def freshEngine (F : Type) [Field F] : Engine F (QuatExpr F) :=
  CreateRenderer2
    { m_coneVertices := []
      m_coneIndices := []
      m_bodyIndexCount := 0
      m_diskIndexCount := 0
      m_animation := ⟨QuatExpr.identity, QuatExpr.identity, QuatExpr.identity, 0, 0⟩
      m_rotationAngle := 0
      m_scale := 0
      m_pivotPoint := ⟨0, 0⟩ }

/-! ## IEEE 754 arithmetic, and the touch handlers over binary32

Where a claim about the touch handlers is decided by rounding or by a not-a-number
result, the handlers are read over IEEE 754 binary32 (`float`) and binary64 (`double`)
with round-to-nearest, ties-to-even.  The two zeros are identified; `std::acos` and
`std::sqrt` are taken to return the correctly rounded result. -/

/-- A floating-point datum: a finite number, an infinity with its sign, or a NaN. -/
inductive IEEE where
  | finite (x : ℝ)
  | inf (negative : Bool)
  | nan

/-- A binary format: bits of precision and the exponent range of its normal numbers. -/
structure Format where
  prec : Nat
  emin : Int
  emax : Int

/-- The format of `float`. -/
def binary32 : Format := ⟨24, -126, 127⟩

/-- The format of `double`. -/
def binary64 : Format := ⟨53, -1022, 1023⟩

/-- The integer nearest to `y`, the even one of the two when `y` is half-way. -/
noncomputable def roundHalfEven (y : ℝ) : Int :=
  if y - ⌊y⌋ < 1 / 2 then ⌊y⌋
  else if 1 / 2 < y - ⌊y⌋ then ⌊y⌋ + 1
  else if ⌊y⌋ % 2 = 0 then ⌊y⌋ else ⌊y⌋ + 1

/-- The spacing of the format's numbers around `x`: `2 ^ (e - (prec - 1))` for `x` in the
binade `[2 ^ e, 2 ^ (e + 1))`, the exponent being held at `emin` for subnormal `x`. -/
noncomputable def Format.ulp (f : Format) (x : ℝ) : ℝ :=
  (2 : ℝ) ^ (max (Int.log 2 |x|) f.emin - ((f.prec : Int) - 1))

/-- Rounding of an exact result to the format: to the nearest number of the format, ties
to even, and to an infinity when that number is beyond the largest finite one. -/
noncomputable def Format.round (f : Format) (x : ℝ) : IEEE :=
  let r : ℝ := (roundHalfEven (x / f.ulp x) : ℝ) * f.ulp x
  if |r| < (2 : ℝ) ^ (f.emax + 1) then IEEE.finite r else IEEE.inf (decide (x < 0))

/-- Unary minus. -/
def IEEE.neg : IEEE → IEEE
  | IEEE.finite x => IEEE.finite (-x)
  | IEEE.inf s => IEEE.inf (!s)
  | IEEE.nan => IEEE.nan

/-- Addition in format `f`. -/
noncomputable def IEEE.add (f : Format) : IEEE → IEEE → IEEE
  | IEEE.finite x, IEEE.finite y => f.round (x + y)
  | IEEE.finite _, IEEE.inf s => IEEE.inf s
  | IEEE.inf s, IEEE.finite _ => IEEE.inf s
  | IEEE.inf s, IEEE.inf t => if s = t then IEEE.inf s else IEEE.nan
  | IEEE.nan, _ => IEEE.nan
  | _, IEEE.nan => IEEE.nan

/-- Multiplication in format `f`; zero times an infinity is a NaN. -/
noncomputable def IEEE.mul (f : Format) : IEEE → IEEE → IEEE
  | IEEE.finite x, IEEE.finite y => f.round (x * y)
  | IEEE.finite x, IEEE.inf s => if x = 0 then IEEE.nan else IEEE.inf (xor (decide (x < 0)) s)
  | IEEE.inf s, IEEE.finite y => if y = 0 then IEEE.nan else IEEE.inf (xor s (decide (y < 0)))
  | IEEE.inf s, IEEE.inf t => IEEE.inf (xor s t)
  | IEEE.nan, _ => IEEE.nan
  | _, IEEE.nan => IEEE.nan

/-- Division in format `f`; a non-zero number over zero is an infinity, zero over zero
and an infinity over an infinity are NaNs. -/
noncomputable def IEEE.div (f : Format) : IEEE → IEEE → IEEE
  | IEEE.finite x, IEEE.finite y =>
    if y = 0 then (if x = 0 then IEEE.nan else IEEE.inf (decide (x < 0)))
    else f.round (x / y)
  | IEEE.finite _, IEEE.inf _ => IEEE.finite 0
  | IEEE.inf s, IEEE.finite y => IEEE.inf (xor s (decide (y < 0)))
  | IEEE.inf _, IEEE.inf _ => IEEE.nan
  | IEEE.nan, _ => IEEE.nan
  | _, IEEE.nan => IEEE.nan

/-- `std::sqrt` in format `f`. -/
noncomputable def IEEE.sqrt (f : Format) : IEEE → IEEE
  | IEEE.finite x => if x < 0 then IEEE.nan else f.round (Real.sqrt x)
  | IEEE.inf s => if s then IEEE.nan else IEEE.inf false
  | IEEE.nan => IEEE.nan

/-- `std::acos` in format `f`; outside `[-1, 1]` the result is a NaN.  Of the rounding
of the library function the statements below use only that `acos(1)` is 0 and that
`acos(1 - 2 ^ (-24))` is not below `2 ^ (-12)`. -/
noncomputable def IEEE.acos (f : Format) : IEEE → IEEE
  | IEEE.finite x => if |x| ≤ 1 then f.round (Real.arccos x) else IEEE.nan
  | IEEE.inf _ => IEEE.nan
  | IEEE.nan => IEEE.nan

/-- Conversion to format `f` (`float` to `double` in a mixed operation, `double` to
`float` in an assignment). -/
noncomputable def IEEE.convert (f : Format) : IEEE → IEEE
  | IEEE.finite x => f.round x
  | IEEE.inf s => IEEE.inf s
  | IEEE.nan => IEEE.nan

/-- The comparison `x > 0`; it is false for a NaN. -/
noncomputable def IEEE.isPositive : IEEE → Bool
  | IEEE.finite x => decide (0 < x)
  | IEEE.inf s => !s
  | IEEE.nan => false

/-- The conversion `vec2(ivec2)` to `float` components. -/
noncomputable def Binary32.toFloat (v : ivec2) : Vector2 IEEE :=
  ⟨binary32.round (v.x : ℝ), binary32.round (v.y : ℝ)⟩

/-- Modelled from the spec: `Vector2::Length` of Vector.hpp (not among the sources), the
Euclidean length, computed in `float`. -/
noncomputable def Binary32.Length (v : Vector2 IEEE) : IEEE :=
  IEEE.sqrt binary32 (IEEE.add binary32 (IEEE.mul binary32 v.x v.x) (IEEE.mul binary32 v.y v.y))

/-- Modelled from the spec: `Vector2::Normalized` is declared in Vector.hpp, which is not
among the sources.  The spec calls it `normalize(newLocation - pivot)` and says that it is
undefined for the zero-length vector, where a NaN propagates: both components are
multiplied by the reciprocal `1.0f / Length()`, which is an infinity at length zero. -/
noncomputable def Binary32.Normalized (v : Vector2 IEEE) : Vector2 IEEE :=
  let s := IEEE.div binary32 (IEEE.finite 1) (Binary32.Length v)
  ⟨IEEE.mul binary32 v.x s, IEEE.mul binary32 v.y s⟩

/-- The macro `M_PI` of `<cmath>`: the `double` nearest to pi. -/
noncomputable def Binary32.M_PI : IEEE := binary64.round Real.pi

/-- `RenderingEngine2::OnFingerUp(ivec2 location)` over binary32. -/
def Binary32.OnFingerUp {Q : Type} (e : Engine IEEE Q) (_location : ivec2) : Engine IEEE Q :=
  { e with m_scale := IEEE.finite 1 }

/-- `RenderingEngine2::OnFingerMove(ivec2 oldLocation, ivec2 newLocation)` over binary32.
In `std::acos(direction.y) * 180.0f / M_PI` the product is a `float`, the quotient by the
`double` constant `M_PI` is a `double`, and the assignment to `m_rotationAngle` converts
it to `float`. -/
noncomputable def Binary32.OnFingerMove {Q : Type} (e : Engine IEEE Q)
    (_oldLocation newLocation : ivec2) : Engine IEEE Q :=
  let direction : Vector2 IEEE :=
    Binary32.Normalized (Binary32.toFloat (newLocation.sub e.m_pivotPoint))
  -- Flip y axis because pixel coords increase toward the bottom
  let direction : Vector2 IEEE := { direction with y := IEEE.neg direction.y }
  let m_rotationAngle : IEEE :=
    IEEE.convert binary32
      (IEEE.div binary64
        (IEEE.convert binary64
          (IEEE.mul binary32 (IEEE.acos binary32 direction.y) (IEEE.finite 180)))
        Binary32.M_PI)
  if IEEE.isPositive direction.x then { e with m_rotationAngle := IEEE.neg m_rotationAngle }
  else { e with m_rotationAngle := m_rotationAngle }

/-- `RenderingEngine2::OnFingerDown(ivec2 location)` over binary32. -/
noncomputable def Binary32.OnFingerDown {Q : Type} (e : Engine IEEE Q)
    (location : ivec2) : Engine IEEE Q :=
  let e : Engine IEEE Q := { e with m_scale := IEEE.finite (3 / 2) }
  Binary32.OnFingerMove e location location

/-- An engine over binary32 as the constructor leaves it (`m_rotationAngle(0)`,
`m_scale(1)`), with the given pivot. -/
def Binary32.engineAt (pivot : ivec2) : Engine IEEE (QuatExpr IEEE) :=
  { m_coneVertices := []
    m_coneIndices := []
    m_bodyIndexCount := 0
    m_diskIndexCount := 0
    m_animation := ⟨QuatExpr.identity, QuatExpr.identity, QuatExpr.identity,
      IEEE.finite 0, IEEE.finite 0⟩
    m_rotationAngle := IEEE.finite 0
    m_scale := IEEE.finite 1
    m_pivotPoint := pivot }

/-! ## The specification's wording of the tables and regions -/

/-- The disk index region as the specification words it: for each odd `i` in
`1, 3, ..., 2N-1`, the triangle `(center, i, (i+2) mod 2N)`. -/
def specDiskRegion (N center : Nat) : List Nat :=
  (List.range N).flatMap fun k => [center, 2 * k + 1, (2 * k + 1 + 2) % (2 * N)]

/-- The direction table as the specification words it. -/
def specDirection {F : Type} [Field F] : DeviceOrientation → Vector3 F
  | DeviceOrientationUnknown => ⟨0, 1, 0⟩
  | DeviceOrientationPortrait => ⟨0, 1, 0⟩
  | DeviceOrientationPortraitUpsideDown => ⟨0, -1, 0⟩
  | DeviceOrientationFaceDown => ⟨0, 0, -1⟩
  | DeviceOrientationFaceUp => ⟨0, 0, 1⟩
  | DeviceOrientationLandscapeLeft => ⟨1, 0, 0⟩
  | DeviceOrientationLandscapeRight => ⟨-1, 0, 0⟩

/-- The direction of a touch as the specification words it: the vector from the pivot to
the location, scaled to unit length, with its y component negated. -/
noncomputable def specTouchDirection (pivot loc : ivec2) : ℝ × ℝ :=
  (((loc.x - pivot.x : Int) : ℝ) /
      Real.sqrt (((loc.x - pivot.x : Int) : ℝ) ^ 2 + ((loc.y - pivot.y : Int) : ℝ) ^ 2),
    -(((loc.y - pivot.y : Int) : ℝ) /
      Real.sqrt (((loc.x - pivot.x : Int) : ℝ) ^ 2 + ((loc.y - pivot.y : Int) : ℝ) ^ 2)))

/-! ## Auxiliary facts about the index loops -/

theorem putAll_eq (vals : List Nat) (c : IndexCursor)
    (h : c.index + vals.length ≤ c.data.length) :
    putAll vals c = some ⟨c.data.take c.index ++ vals.map (· % 256) ++
      c.data.drop (c.index + vals.length), c.index + vals.length⟩ := by
  induction vals generalizing c with
  | nil =>
    obtain ⟨data, index⟩ := c
    simp [putAll]
  | cons v vs ih =>
    obtain ⟨data, index⟩ := c
    simp only [List.length_cons] at h
    have hlt : index < data.length := by omega
    have h2 : (index + 1) + vs.length ≤ (data.set index (v % 256)).length := by
      simp only [List.length_set]; omega
    simp only [putAll, IndexCursor.put, hlt, if_true, Option.some_bind]
    rw [ih ⟨data.set index (v % 256), index + 1⟩ h2]
    simp only [List.length_cons, List.map_cons, Option.some.injEq, IndexCursor.mk.injEq]
    refine ⟨?_, by omega⟩
    have h5 : List.take index (data.set index (v % 256)) = List.take index data := by
      rw [List.set_take]
      exact List.set_eq_of_length_le (by simp)
    rw [List.drop_set_of_lt _ _ (by omega), List.take_succ, h5, List.getElem?_set_self hlt]
    have h6 : index + 1 + vs.length = index + (vs.length + 1) := by omega
    rw [h6]
    simp [List.append_assoc]

theorem bodyTriangles_eq (n : Nat) (fuel i : Nat) (c : IndexCursor)
    (hf : 0 < fuel) (h : n * 2 + 2 ≤ i + 2 * fuel) :
    bodyTriangles n fuel i c = putAll (bodyVals n fuel i) c := by
  induction fuel generalizing i c with
  | zero => omega
  | succ fuel ih =>
    by_cases hi : i < n * 2
    · have hf2 : 0 < fuel := by omega
      simp only [bodyTriangles, bodyVals, hi, if_true, putAll, Option.bind_eq_bind]
      congr 1; funext c1
      congr 1; funext c2
      congr 1; funext c3
      exact ih (i + 2) c3 hf2 (by omega)
    · simp [bodyTriangles, bodyVals, hi, putAll]

theorem diskTriangles_eq (n d : Nat) (fuel i : Nat) (c : IndexCursor)
    (hf : 0 < fuel) (h : n * 2 + 3 ≤ i + 2 * fuel) :
    diskTriangles n d fuel i c = putAll (diskVals n d fuel i) c := by
  induction fuel generalizing i c with
  | zero => omega
  | succ fuel ih =>
    by_cases hi : i < n * 2 + 1
    · have hf2 : 0 < fuel := by omega
      simp only [diskTriangles, diskVals, hi, if_true, putAll, Option.bind_eq_bind]
      congr 1; funext c1
      congr 1; funext c2
      congr 1; funext c3
      exact ih (i + 2) c3 hf2 (by omega)
    · simp [diskTriangles, diskVals, hi, putAll]

/-! ## Auxiliary facts about `Initialize` -/

theorem length_resizeVertices {F : Type} (dflt : Vertex F) (v : List (Vertex F)) (n : Nat) :
    (resizeVertices dflt v n).length = n := by
  simp only [resizeVertices, List.length_append, List.length_take, List.length_replicate]
  omega

theorem length_resizeIndices (v : List Nat) (n : Nat) : (resizeIndices v n).length = n := by
  simp only [resizeIndices, List.length_append, List.length_take, List.length_replicate]
  omega

/-- The body loop of the vertices stops on the last element when it is entered an even
number of elements before it, and it keeps the size of the vector. -/
theorem coneBody_ok {F : Type} [LinearOrderedField F] [CMath F] (r h d : F) (k : Nat) :
    ∀ (fuel : Nat) (vs : List (Vertex F)) (vertex : Nat) (theta : F),
      vertex + 2 * k + 1 = vs.length → k < fuel →
      ∃ vs1, coneBody r h d fuel vs vertex theta = some (vs1, vs.length - 1) ∧
        vs1.length = vs.length := by
  induction k with
  | zero =>
    intro fuel vs vertex theta hlen hfuel
    obtain ⟨f, rfl⟩ : ∃ f, fuel = f + 1 := ⟨fuel - 1, by omega⟩
    have hv : vertex = vs.length - 1 := by omega
    exact ⟨vs, by simp [coneBody, hv], rfl⟩
  | succ k ih =>
    intro fuel vs vertex theta hlen hfuel
    obtain ⟨f, rfl⟩ : ∃ f, fuel = f + 1 := ⟨fuel - 1, by omega⟩
    have hv : vertex ≠ vs.length - 1 := by omega
    have h1 : vertex < vs.length := by omega
    have h2 : vertex + 1 < vs.length := by omega
    obtain ⟨vs1, hrun, hlen1⟩ := ih f
      ((vs.set vertex ⟨⟨0, 1, 0⟩,
          ⟨|CMath.sin theta|, |CMath.cos theta|, |CMath.sin theta|, 1⟩⟩).set (vertex + 1)
        ⟨⟨r * CMath.cos theta, 1 - h, r * CMath.sin theta⟩,
          ⟨|CMath.sin theta|, |CMath.cos theta|, |CMath.sin theta|, 1⟩⟩)
      (vertex + 1 + 1) (theta + d)
      (by simp only [List.length_set]; omega) (by omega)
    refine ⟨vs1, ?_, by simpa using hlen1⟩
    simp only [List.length_set] at hrun
    simp [coneBody, hv, putVertex, h1, h2, hrun]

/-- The two index loops of `Initialize`, run on any vector of 240 indices: the body loop
fills the first 120 elements and leaves the others, the disk loop fills the other 120. -/
theorem index_loops (buf : List Nat) (hbuf : buf.length = 240) :
    bodyTriangles 40 loopFuel 0 ⟨buf, 0⟩ =
        some ⟨(bodyVals 40 loopFuel 0).map (· % 256) ++ buf.drop 120, 120⟩ ∧
      diskTriangles 40 82 loopFuel 1
          ⟨(bodyVals 40 loopFuel 0).map (· % 256) ++ buf.drop 120, 120⟩ =
        some ⟨coneIndexData, 240⟩ := by
  have hb : (bodyVals 40 loopFuel 0).length = 120 := rfl
  have hd : (diskVals 40 82 loopFuel 1).length = 120 := rfl
  constructor
  · rw [bodyTriangles_eq 40 loopFuel 0 _ (by decide) (by decide), putAll_eq _ _ (by simp [hb, hbuf])]
    simp [hb]
  · rw [diskTriangles_eq 40 82 loopFuel 1 _ (by decide) (by decide),
      putAll_eq _ _ (by simp [hb, hd, hbuf])]
    simp [hb, hd, hbuf, coneIndexData]

/-- `Initialize` returns, whatever the engine held before: the pivot is the centre of the
viewport, the vertex vector has 81 elements, the last of them (element 80) being the white
disk-centre vertex, and the index data is `coneIndexData`. -/
theorem Initialize_ok {F Q : Type} [LinearOrderedField F] [CMath F] (e : Engine F Q)
    (width height : Int) :
    ∃ vs : List (Vertex F), vs.length = 81 ∧
      vs[80]? = some ⟨⟨0, 1 - 1866 / 1000, 0⟩, ⟨1, 1, 1, 1⟩⟩ ∧
      Initialize e width height = some { e with
        m_pivotPoint := ⟨Int.tdiv width 2, Int.tdiv height 2⟩
        m_coneVertices := vs
        m_coneIndices := coneIndexData
        m_bodyIndexCount := 120
        m_diskIndexCount := 120 } := by
  have hlen := length_resizeVertices (Vertex.zero : Vertex F) e.m_coneVertices 81
  obtain ⟨vs1, hrun, hlen1⟩ := coneBody_ok (1 / 2 : F) (1866 / 1000) (TwoPi / ((40 : Nat) : F)) 40
    loopFuel (resizeVertices Vertex.zero e.m_coneVertices 81) 0 0 (by rw [hlen]) (by decide)
  rw [hlen] at hrun hlen1
  obtain ⟨hbody, hdisk⟩ := index_loops (resizeIndices e.m_coneIndices 240)
    (length_resizeIndices _ _)
  refine ⟨vs1.set 80 ⟨⟨0, 1 - 1866 / 1000, 0⟩, ⟨1, 1, 1, 1⟩⟩, by simp [hlen1],
    by simp [hlen1], ?_⟩
  simp only [Initialize, hrun, putVertex, hlen1, hbody]
  simp [hlen1, hdisk]

/-! ## The mesh built by `Initialize` -/

/-- The index data written out: 40 body triangles `(i, i+1, i+3 mod 80)` for even `i`,
then 40 disk triangles `(82, i, i+2 mod 80)` for odd `i`. -/
theorem coneIndexData_eq : coneIndexData =
  [0, 1, 3, 2, 3, 5, 4, 5, 7, 6, 7, 9, 8, 9, 11, 10, 11, 13, 12, 13, 15, 14, 15, 17, 16, 17,
    19, 18, 19, 21, 20, 21, 23, 22, 23, 25, 24, 25, 27, 26, 27, 29, 28, 29, 31, 30, 31, 33, 32,
    33, 35, 34, 35, 37, 36, 37, 39, 38, 39, 41, 40, 41, 43, 42, 43, 45, 44, 45, 47, 46, 47, 49,
    48, 49, 51, 50, 51, 53, 52, 53, 55, 54, 55, 57, 56, 57, 59, 58, 59, 61, 60, 61, 63, 62, 63,
    65, 64, 65, 67, 66, 67, 69, 68, 69, 71, 70, 71, 73, 72, 73, 75, 74, 75, 77, 76, 77, 79, 78,
    79, 1, 82, 1, 3, 82, 3, 5, 82, 5, 7, 82, 7, 9, 82, 9, 11, 82, 11, 13, 82, 13, 15, 82, 15,
    17, 82, 17, 19, 82, 19, 21, 82, 21, 23, 82, 23, 25, 82, 25, 27, 82, 27, 29, 82, 29, 31, 82,
    31, 33, 82, 33, 35, 82, 35, 37, 82, 37, 39, 82, 39, 41, 82, 41, 43, 82, 43, 45, 82, 45, 47,
    82, 47, 49, 82, 49, 51, 82, 51, 53, 82, 53, 55, 82, 55, 57, 82, 57, 59, 82, 59, 61, 82, 61,
    63, 82, 63, 65, 82, 65, 67, 82, 67, 69, 82, 69, 71, 82, 71, 73, 82, 73, 75, 82, 75, 77, 82,
    77, 79, 82, 79, 1] := by
  decide

/-- C1, evaluated on the code: after `Initialize` the vertex vector has 81 elements, the
disk-centre vertex being element 80, but the index stored at position 120, the first of
the disk region, is 82; the indices that are not below the vertex count are exactly the
40 copies of 82 that head the disk triangles. -/
theorem Initialize_disk_center_not_below_vertexCount {F Q : Type} [LinearOrderedField F]
    [CMath F] (e : Engine F Q) (width height : Int) :
    ∃ e1, Initialize e width height = some e1 ∧
      e1.m_coneVertices.length = 81 ∧
      e1.m_coneVertices[80]? = some ⟨⟨0, 1 - 1866 / 1000, 0⟩, ⟨1, 1, 1, 1⟩⟩ ∧
      e1.m_coneIndices[120]? = some 82 ∧
      e1.m_coneIndices.filter (fun v => decide (e1.m_coneVertices.length ≤ v)) =
        List.replicate 40 82 ∧
      ¬ ∀ v ∈ e1.m_coneIndices, v < e1.m_coneVertices.length := by
  obtain ⟨vs, hvs, hcentre, hinit⟩ := Initialize_ok e width height
  refine ⟨_, hinit, hvs, hcentre, ?_, ?_, ?_⟩
  · show coneIndexData[120]? = some 82
    rw [coneIndexData_eq]
    rfl
  · show coneIndexData.filter (fun v => decide (vs.length ≤ v)) = List.replicate 40 82
    rw [hvs, coneIndexData_eq]
    decide
  · show ¬ ∀ v ∈ coneIndexData, v < vs.length
    rw [hvs, coneIndexData_eq]
    intro hall
    exact absurd (hall 82 (by simp)) (by decide)

/-- C4, counterexample: on a fresh engine initialised for a 320x480 viewport, the disk
region (the 120 entries after the 120 body entries) is not the specified concatenation
with `diskCenterIndex = 2N + 1 = 81`: its first entry is 82, the specified one is 81. -/
theorem disk_region_center_counterexample :
    ∃ e1, Initialize (freshEngine ℝ) 320 480 = some e1 ∧
      (e1.m_coneIndices.drop 120)[0]? = some 82 ∧
      (specDiskRegion 40 (2 * 40 + 1))[0]? = some 81 ∧
      e1.m_coneIndices.drop 120 ≠ specDiskRegion 40 (2 * 40 + 1) := by
  obtain ⟨vs, _, _, hinit⟩ := Initialize_ok (freshEngine ℝ) 320 480
  refine ⟨_, hinit, ?_, by decide, ?_⟩
  · show (coneIndexData.drop 120)[0]? = some 82
    rw [coneIndexData_eq]
    decide
  · show coneIndexData.drop 120 ≠ specDiskRegion 40 (2 * 40 + 1)
    rw [coneIndexData_eq]
    decide

/-- C4, amended: after `Initialize` the index vector has 240 entries and its disk region
(the 120 entries after the 120 body entries) is the concatenation, for each odd
`i = 1, 3, ..., 79` in increasing order, of the triangle `(c, i, (i+2) mod 80)`, with one
and the same first entry `c` in all 40 triangles. -/
theorem Initialize_disk_region {F Q : Type} [LinearOrderedField F] [CMath F]
    (e : Engine F Q) (width height : Int) :
    ∃ e1 c, Initialize e width height = some e1 ∧
      e1.m_coneIndices.length = 3 * 40 + 3 * 40 ∧
      e1.m_coneIndices.drop (3 * 40) = specDiskRegion 40 c := by
  obtain ⟨vs, _, _, hinit⟩ := Initialize_ok e width height
  refine ⟨_, 82, hinit, ?_, ?_⟩
  · show coneIndexData.length = 3 * 40 + 3 * 40
    rw [coneIndexData_eq]
    decide
  · show coneIndexData.drop (3 * 40) = specDiskRegion 40 82
    rw [coneIndexData_eq]
    decide

/-- C8: `Initialize` returns with a vertex vector of `2N+1 = 81` entries,
`m_bodyIndexCount = m_diskIndexCount = 3N = 120` and an index vector of
`m_bodyIndexCount + m_diskIndexCount = 240` entries.  Every entry is written: run on any
240 prior index values, the body loop ends with its iterator at 120 having left the
entries from 120 on alone, and the disk loop then ends with its iterator at 240, having
left the first 120 alone, on the same index data whatever the prior values were. -/
theorem Initialize_counts {F Q : Type} [LinearOrderedField F] [CMath F]
    (e : Engine F Q) (width height : Int) :
    ∃ e1, Initialize e width height = some e1 ∧
      e1.m_coneVertices.length = 2 * 40 + 1 ∧
      e1.m_bodyIndexCount = 3 * 40 ∧ e1.m_diskIndexCount = 3 * 40 ∧
      e1.m_coneIndices.length = e1.m_bodyIndexCount + e1.m_diskIndexCount ∧
      e1.m_coneIndices.length = 6 * 40 ∧
      ∀ buf : List Nat, buf.length = 240 →
        ∃ c1, bodyTriangles 40 loopFuel 0 ⟨buf, 0⟩ = some c1 ∧
          c1.index = 120 ∧ c1.data.drop 120 = buf.drop 120 ∧
          diskTriangles 40 (2 * 40 + 1 + 1) loopFuel 1 c1 = some ⟨e1.m_coneIndices, 240⟩ ∧
          e1.m_coneIndices.take 120 = c1.data.take 120 := by
  obtain ⟨vs, hvs, hcentre, hinit⟩ := Initialize_ok e width height
  have hlen : coneIndexData.length = 240 := by rw [coneIndexData_eq]; decide
  have hb : ((bodyVals 40 loopFuel 0).map (· % 256)).length = 120 := rfl
  refine ⟨_, hinit, hvs, rfl, rfl, ?_, ?_, ?_⟩
  · exact hlen
  · exact hlen
  · intro buf hbuf
    obtain ⟨hbody, hdisk⟩ := index_loops buf hbuf
    refine ⟨_, hbody, rfl, ?_, hdisk, ?_⟩
    · show List.drop 120 ((bodyVals 40 loopFuel 0).map (· % 256) ++ buf.drop 120) = _
      rw [List.drop_left' hb]
    · show List.take 120 coneIndexData =
        List.take 120 ((bodyVals 40 loopFuel 0).map (· % 256) ++ buf.drop 120)
      rw [List.take_left' hb, coneIndexData, List.take_left' hb]

/-- C2, evaluated on the code: after `Initialize`, the second draw of `Render` has count
`m_diskIndexCount = 120`, but the index pointer it is handed is the address of element
`m_bodyIndexCount = 120` of `m_coneVertices`, not of `m_coneIndices`, and that element is
past the 81 elements of the vector it is taken from; the first draw does point at element
0 of `m_coneIndices`. -/
theorem Render_disk_indices_taken_from_vertices {F Q : Type} [LinearOrderedField F]
    [CMath F] (e : Engine F Q) (width height : Int) :
    ∃ e1, Initialize e width height = some e1 ∧
      Render e1 =
        [⟨e1.m_bodyIndexCount, ⟨Container.coneIndices, 0⟩⟩,
         ⟨e1.m_diskIndexCount, ⟨Container.coneVertices, e1.m_bodyIndexCount⟩⟩] ∧
      ∃ d, (Render e1)[1]? = some d ∧ d.count = 120 ∧
        d.indices ≠ ⟨Container.coneIndices, e1.m_bodyIndexCount⟩ ∧
        d.indices.container = Container.coneVertices ∧
        d.indices.element = 120 ∧
        d.indices.container.size e1 = 81 ∧
        ¬ d.indices.element < d.indices.container.size e1 := by
  obtain ⟨vs, hvs, hcentre, hinit⟩ := Initialize_ok e width height
  refine ⟨_, hinit, rfl, _, rfl, rfl, by simp [Render], rfl, rfl, hvs, ?_⟩
  show ¬ 120 < vs.length
  omega

/-! ## The orientation animation -/

/-- An `UpdateAnimation` on an animation at rest (`Current == End`) changes nothing. -/
theorem UpdateAnimation_at_rest {F Q : Type} [LinearOrderedField F] [DecidableEq Q]
    (lib : QuaternionLib F Q) (e : Engine F Q) (timeStep : F)
    (h : e.m_animation.Current = e.m_animation.End) : UpdateAnimation lib e timeStep = e := by
  simp [UpdateAnimation, h]

/-- Any run of `UpdateAnimation` calls on an animation at rest changes nothing. -/
theorem UpdateAnimation_run_at_rest {F Q : Type} [LinearOrderedField F] [DecidableEq Q]
    (lib : QuaternionLib F Q) (e : Engine F Q)
    (h : e.m_animation.Current = e.m_animation.End) (steps : List F) :
    steps.foldl (UpdateAnimation lib) e = e := by
  induction steps with
  | nil => rfl
  | cons t ts ih => rw [List.foldl_cons, UpdateAnimation_at_rest lib e t h, ih]

/-- C7: `OnRotate(o)` sets `Elapsed = 0`, sets `Start` and `Current` to the `End` held
before the call and sets `End = CreateFromVectors((0,1,0), dir(o))` for the fixed table
`dir`; a second call with the same orientation leaves `End` as the first call set it,
and `Elapsed` is 0 after it as well. -/
theorem OnRotate_sets_transition {F Q : Type} [Field F] (lib : QuaternionLib F Q)
    (e : Engine F Q) (o : DeviceOrientation) :
    (OnRotate lib e o).m_animation.Elapsed = 0 ∧
      (OnRotate lib e o).m_animation.Start = e.m_animation.End ∧
      (OnRotate lib e o).m_animation.Current = e.m_animation.End ∧
      (OnRotate lib e o).m_animation.End = lib.CreateFromVectors ⟨0, 1, 0⟩ (specDirection o) ∧
      (OnRotate lib (OnRotate lib e o) o).m_animation.End = (OnRotate lib e o).m_animation.End ∧
      (OnRotate lib (OnRotate lib e o) o).m_animation.Elapsed = 0 := by
  cases o <;> simp [OnRotate, specDirection]

/-- C6: when `Elapsed + timeStep >= AnimationDuration`, `UpdateAnimation(timeStep)` leaves
`Current` equal to `End` (the `End` held before the call), and any later run of
`UpdateAnimation` calls, with any time steps, leaves the whole state unchanged. -/
theorem UpdateAnimation_reaches_End {F Q : Type} [LinearOrderedField F] [DecidableEq Q]
    (lib : QuaternionLib F Q) (e : Engine F Q) (timeStep : F)
    (h : e.m_animation.Elapsed + timeStep ≥ AnimationDuration) :
    (UpdateAnimation lib e timeStep).m_animation.Current =
        (UpdateAnimation lib e timeStep).m_animation.End ∧
      (UpdateAnimation lib e timeStep).m_animation.End = e.m_animation.End ∧
      ∀ steps : List F,
        steps.foldl (UpdateAnimation lib) (UpdateAnimation lib e timeStep) =
          UpdateAnimation lib e timeStep := by
  have hcur : (UpdateAnimation lib e timeStep).m_animation.Current =
      (UpdateAnimation lib e timeStep).m_animation.End := by
    by_cases hrest : e.m_animation.Current = e.m_animation.End
    · simp [UpdateAnimation, hrest]
    · simp [UpdateAnimation, hrest, h]
  have hend : (UpdateAnimation lib e timeStep).m_animation.End = e.m_animation.End := by
    by_cases hrest : e.m_animation.Current = e.m_animation.End
    · simp [UpdateAnimation, hrest]
    · simp [UpdateAnimation, hrest, h]
  exact ⟨hcur, hend, fun steps => UpdateAnimation_run_at_rest lib _ hcur steps⟩

/-- C6, witness: on a fresh engine, `OnRotate(LandscapeLeft)` followed by
`UpdateAnimation(0.25)` gives `Current == End == CreateFromVectors((0,1,0), (1,0,0))`,
and a further `UpdateAnimation(1)` changes nothing. -/
theorem UpdateAnimation_reaches_End_witness :
    (OnRotate (exprLib ℚ) (freshEngine ℚ) DeviceOrientationLandscapeLeft).m_animation.Elapsed
        + 1 / 4 ≥ (AnimationDuration : ℚ) ∧
      (UpdateAnimation (exprLib ℚ)
        (OnRotate (exprLib ℚ) (freshEngine ℚ) DeviceOrientationLandscapeLeft)
        (1 / 4)).m_animation.Current = QuatExpr.fromVectors ⟨0, 1, 0⟩ ⟨1, 0, 0⟩ ∧
      (UpdateAnimation (exprLib ℚ)
        (OnRotate (exprLib ℚ) (freshEngine ℚ) DeviceOrientationLandscapeLeft)
        (1 / 4)).m_animation.End = QuatExpr.fromVectors ⟨0, 1, 0⟩ ⟨1, 0, 0⟩ ∧
      [(1 : ℚ)].foldl (UpdateAnimation (exprLib ℚ))
          (UpdateAnimation (exprLib ℚ)
            (OnRotate (exprLib ℚ) (freshEngine ℚ) DeviceOrientationLandscapeLeft) (1 / 4)) =
        UpdateAnimation (exprLib ℚ)
          (OnRotate (exprLib ℚ) (freshEngine ℚ) DeviceOrientationLandscapeLeft) (1 / 4) := by
  have h0 : (OnRotate (exprLib ℚ) (freshEngine ℚ)
      DeviceOrientationLandscapeLeft).m_animation.Elapsed + 1 / 4 ≥ (AnimationDuration : ℚ) := by
    simp [OnRotate, AnimationDuration]
  have h := UpdateAnimation_reaches_End (exprLib ℚ)
    (OnRotate (exprLib ℚ) (freshEngine ℚ) DeviceOrientationLandscapeLeft) (1 / 4) h0
  refine ⟨h0, ?_, ?_, h.2.2 [1]⟩
  · rw [h.1, h.2.1]; rfl
  · rw [h.2.1]; rfl

/-- C5, counterexample: after `OnRotate(Portrait)` on a fresh engine, a second
`OnRotate(Portrait)` leaves `Current == End` (the animation is at rest, not
interpolating), and the next `UpdateAnimation` returns without changing anything. -/
theorem OnRotate_same_target_counterexample :
    (OnRotate (exprLib ℚ) (OnRotate (exprLib ℚ) (freshEngine ℚ) DeviceOrientationPortrait)
        DeviceOrientationPortrait).m_animation.Current =
      (OnRotate (exprLib ℚ) (OnRotate (exprLib ℚ) (freshEngine ℚ) DeviceOrientationPortrait)
        DeviceOrientationPortrait).m_animation.End ∧
    (UpdateAnimation (exprLib ℚ)
      (OnRotate (exprLib ℚ) (OnRotate (exprLib ℚ) (freshEngine ℚ) DeviceOrientationPortrait)
        DeviceOrientationPortrait) (1 / 10)).m_animation.Elapsed = 0 ∧
    ¬ ∀ (e : Engine ℚ (QuatExpr ℚ)) (o : DeviceOrientation),
        (OnRotate (exprLib ℚ) e o).m_animation.Current ≠
          (OnRotate (exprLib ℚ) e o).m_animation.End := by
  have hrest : (OnRotate (exprLib ℚ)
      (OnRotate (exprLib ℚ) (freshEngine ℚ) DeviceOrientationPortrait)
        DeviceOrientationPortrait).m_animation.Current =
      (OnRotate (exprLib ℚ) (OnRotate (exprLib ℚ) (freshEngine ℚ) DeviceOrientationPortrait)
        DeviceOrientationPortrait).m_animation.End := rfl
  refine ⟨hrest, ?_, fun hall => hall _ _ hrest⟩
  rw [UpdateAnimation_at_rest _ _ _ hrest]
  rfl

/-- C5, amended: right after `OnRotate`, `Current` is the `End` held before the call, so
the animation is interpolating (`Current != End`) exactly when the new `End` differs from
the previous `End`.  In that case the next `UpdateAnimation` is not skipped by the at-rest
check (it advances `Elapsed` from 0 to the time step); when the new target yields the same
`End` as before, the animation is at rest and the next `UpdateAnimation` changes nothing. -/
theorem OnRotate_interpolating_iff {F Q : Type} [LinearOrderedField F] [DecidableEq Q]
    (lib : QuaternionLib F Q) (e : Engine F Q) (o : DeviceOrientation) :
    ((OnRotate lib e o).m_animation.Current ≠ (OnRotate lib e o).m_animation.End ↔
        (OnRotate lib e o).m_animation.End ≠ e.m_animation.End) ∧
      ((OnRotate lib e o).m_animation.End ≠ e.m_animation.End →
        ∀ timeStep : F,
          (UpdateAnimation lib (OnRotate lib e o) timeStep).m_animation.Elapsed = timeStep) ∧
      ((OnRotate lib e o).m_animation.End = e.m_animation.End →
        ∀ timeStep : F, UpdateAnimation lib (OnRotate lib e o) timeStep = OnRotate lib e o) := by
  have hcur : (OnRotate lib e o).m_animation.Current = e.m_animation.End := rfl
  have hel : (OnRotate lib e o).m_animation.Elapsed = 0 := rfl
  refine ⟨?_, ?_, ?_⟩
  · rw [hcur]
    exact ⟨fun h h2 => h h2.symm, fun h h2 => h h2.symm⟩
  · intro hne timeStep
    have hne2 : ¬ (OnRotate lib e o).m_animation.Current = (OnRotate lib e o).m_animation.End := by
      rw [hcur]
      exact fun h2 => hne h2.symm
    unfold UpdateAnimation
    rw [if_neg hne2, hel]
    by_cases hd : (AnimationDuration : F) ≤ timeStep
    · simp [hd]
    · simp [hd]
  · intro heq timeStep
    exact UpdateAnimation_at_rest lib _ timeStep (by rw [hcur, heq])

/-! ## The touch handlers -/

/-- The angle `OnFingerMove` writes: it is computed from the normalised vector from the
pivot to `newLocation` alone. -/
theorem OnFingerMove_rotationAngle {F Q : Type} [LinearOrderedField F] [CMath F]
    (e : Engine F Q) (oldLocation newLocation : ivec2) :
    (OnFingerMove e oldLocation newLocation).m_rotationAngle =
      if ((Vector2.toFloat (newLocation.sub e.m_pivotPoint)).Normalized : Vector2 F).x > 0 then
        -(CMath.acos
            (-((Vector2.toFloat (newLocation.sub e.m_pivotPoint)).Normalized : Vector2 F).y)
          * 180 / CMath.pi)
      else
        CMath.acos
            (-((Vector2.toFloat (newLocation.sub e.m_pivotPoint)).Normalized : Vector2 F).y)
          * 180 / CMath.pi := by
  unfold OnFingerMove
  simp only []
  split <;> rfl

/-- `OnFingerMove` leaves the scale and the pivot alone. -/
theorem OnFingerMove_keeps {F Q : Type} [LinearOrderedField F] [CMath F]
    (e : Engine F Q) (oldLocation newLocation : ivec2) :
    (OnFingerMove e oldLocation newLocation).m_scale = e.m_scale ∧
      (OnFingerMove e oldLocation newLocation).m_pivotPoint = e.m_pivotPoint := by
  unfold OnFingerMove
  simp only []
  split <;> exact ⟨rfl, rfl⟩

/-- The normalised vector from the pivot to a location, over the reals. -/
theorem Normalized_real (pivot loc : ivec2) :
    ((Vector2.toFloat (loc.sub pivot)).Normalized : Vector2 ℝ) =
      ⟨((loc.x - pivot.x : Int) : ℝ) /
          Real.sqrt (((loc.x - pivot.x : Int) : ℝ) ^ 2 + ((loc.y - pivot.y : Int) : ℝ) ^ 2),
        ((loc.y - pivot.y : Int) : ℝ) /
          Real.sqrt (((loc.x - pivot.x : Int) : ℝ) ^ 2 + ((loc.y - pivot.y : Int) : ℝ) ^ 2)⟩ := by
  simp only [Vector2.Normalized, Vector2.Length, Vector2.toFloat, Vector2.sub, CMath.sqrt,
    mul_one_div, pow_two]

/-- The distance from the pivot to a different location is positive. -/
theorem touch_length_pos (pivot loc : ivec2) (h : loc ≠ pivot) :
    0 < Real.sqrt (((loc.x - pivot.x : Int) : ℝ) ^ 2 + ((loc.y - pivot.y : Int) : ℝ) ^ 2) := by
  apply Real.sqrt_pos.mpr
  have hne : (loc.x - pivot.x : Int) ≠ 0 ∨ (loc.y - pivot.y : Int) ≠ 0 := by
    by_contra hcon
    push_neg at hcon
    apply h
    obtain ⟨lx, ly⟩ := loc
    obtain ⟨px, py⟩ := pivot
    simp only at hcon
    have h1 : lx = px := by omega
    have h2 : ly = py := by omega
    rw [h1, h2]
  rcases hne with hx | hy
  · have : (0 : ℝ) < ((loc.x - pivot.x : Int) : ℝ) ^ 2 := by
      have : ((loc.x - pivot.x : Int) : ℝ) ≠ 0 := by exact_mod_cast hx
      positivity
    positivity
  · have : (0 : ℝ) < ((loc.y - pivot.y : Int) : ℝ) ^ 2 := by
      have : ((loc.y - pivot.y : Int) : ℝ) ≠ 0 := by exact_mod_cast hy
      positivity
    positivity

/-- C9: for `newLocation` different from the pivot, `OnFingerMove` sets `RotationAngle`
to a value in `[-180, 180]` whose magnitude is `acos(d.y) * 180/pi`, where `d` is the unit
vector from the pivot to `newLocation` with its y component negated; the value is
non-positive when `d.x > 0` (that is, when `newLocation` lies to the right of the pivot)
and non-negative otherwise, and it does not depend on `oldLocation`. -/
theorem OnFingerMove_angle_range {Q : Type} (e : Engine ℝ Q) (oldLocation newLocation : ivec2)
    (h : newLocation ≠ e.m_pivotPoint) :
    (specTouchDirection e.m_pivotPoint newLocation).1 ^ 2 +
        (specTouchDirection e.m_pivotPoint newLocation).2 ^ 2 = 1 ∧
      -180 ≤ (OnFingerMove e oldLocation newLocation).m_rotationAngle ∧
      (OnFingerMove e oldLocation newLocation).m_rotationAngle ≤ 180 ∧
      |(OnFingerMove e oldLocation newLocation).m_rotationAngle| =
        Real.arccos (specTouchDirection e.m_pivotPoint newLocation).2 * 180 / Real.pi ∧
      (0 < (specTouchDirection e.m_pivotPoint newLocation).1 →
        (OnFingerMove e oldLocation newLocation).m_rotationAngle ≤ 0) ∧
      (¬ 0 < (specTouchDirection e.m_pivotPoint newLocation).1 →
        0 ≤ (OnFingerMove e oldLocation newLocation).m_rotationAngle) ∧
      (0 < (specTouchDirection e.m_pivotPoint newLocation).1 ↔
        e.m_pivotPoint.x < newLocation.x) ∧
      ∀ otherOld : ivec2,
        (OnFingerMove e otherOld newLocation).m_rotationAngle =
          (OnFingerMove e oldLocation newLocation).m_rotationAngle := by
  have hL := touch_length_pos e.m_pivotPoint newLocation h
  have hangle : ∀ old : ivec2, (OnFingerMove e old newLocation).m_rotationAngle =
      if 0 < (specTouchDirection e.m_pivotPoint newLocation).1 then
        -(Real.arccos (specTouchDirection e.m_pivotPoint newLocation).2 * 180 / Real.pi)
      else Real.arccos (specTouchDirection e.m_pivotPoint newLocation).2 * 180 / Real.pi := by
    intro old
    rw [OnFingerMove_rotationAngle, Normalized_real]
    rfl
  have hA0 : 0 ≤ Real.arccos (specTouchDirection e.m_pivotPoint newLocation).2 * 180 / Real.pi :=
    div_nonneg (mul_nonneg (Real.arccos_nonneg _) (by norm_num)) Real.pi_pos.le
  have hA1 : Real.arccos (specTouchDirection e.m_pivotPoint newLocation).2 * 180 / Real.pi
      ≤ 180 := by
    rw [div_le_iff₀ Real.pi_pos]
    have := Real.arccos_le_pi (specTouchDirection e.m_pivotPoint newLocation).2
    nlinarith
  refine ⟨?_, ?_, ?_, ?_, ?_, ?_, ?_, ?_⟩
  · simp only [specTouchDirection, neg_sq, div_pow]
    rw [Real.sq_sqrt (by positivity), ← add_div]
    exact div_self (ne_of_gt (Real.sqrt_pos.mp hL))
  · rw [hangle]; split <;> linarith
  · rw [hangle]; split <;> linarith
  · rw [hangle]
    split
    · rw [abs_neg, abs_of_nonneg hA0]
    · rw [abs_of_nonneg hA0]
  · intro hx
    rw [hangle, if_pos hx]
    linarith
  · intro hx
    rw [hangle, if_neg hx]
    exact hA0
  · simp only [specTouchDirection]
    rw [div_pos_iff_of_pos_right hL]
    constructor
    · intro hx
      have : (0 : Int) < newLocation.x - e.m_pivotPoint.x := by exact_mod_cast hx
      omega
    · intro hx
      have : (0 : Int) < newLocation.x - e.m_pivotPoint.x := by omega
      exact_mod_cast this
  · intro otherOld
    rw [hangle, hangle]

/-- C9, witness: pivot `(0, 0)` and `newLocation = (3, 4)`. -/
theorem OnFingerMove_angle_range_witness :
    (⟨3, 4⟩ : ivec2) ≠ (freshEngine ℝ).m_pivotPoint ∧
      -180 ≤ (OnFingerMove (freshEngine ℝ) ⟨7, 7⟩ ⟨3, 4⟩).m_rotationAngle ∧
      (OnFingerMove (freshEngine ℝ) ⟨7, 7⟩ ⟨3, 4⟩).m_rotationAngle ≤ 0 := by
  have hne : (⟨3, 4⟩ : ivec2) ≠ (freshEngine ℝ).m_pivotPoint := by
    simp [freshEngine, CreateRenderer2]
  have h := OnFingerMove_angle_range (freshEngine ℝ) ⟨7, 7⟩ ⟨3, 4⟩ hne
  refine ⟨hne, h.2.1, h.2.2.2.2.1 ?_⟩
  rw [h.2.2.2.2.2.2.1]
  simp [freshEngine, CreateRenderer2]

/-- With the arithmetic read over the reals: with the pivot at `(px, py)` and a location
`(px, y)` straight above it (`y < py`), `OnFingerDown(location)` sets the scale to 1.5 and
the angle to 0, the angle `OnFingerMove(location, location)` gives; a following
`OnFingerUp` sets the scale to 1 and leaves the angle as it was. -/
theorem OnFingerDown_straight_above_exact {Q : Type} (e : Engine ℝ Q) (px py y : Int)
    (hp : e.m_pivotPoint = ⟨px, py⟩) (hy : y < py) :
    (OnFingerDown e ⟨px, y⟩).m_scale = 3 / 2 ∧
      (OnFingerDown e ⟨px, y⟩).m_rotationAngle = 0 ∧
      (OnFingerDown e ⟨px, y⟩).m_rotationAngle =
        (OnFingerMove e ⟨px, y⟩ ⟨px, y⟩).m_rotationAngle ∧
      ∀ location : ivec2,
        (OnFingerUp (OnFingerDown e ⟨px, y⟩) location).m_scale = 1 ∧
          (OnFingerUp (OnFingerDown e ⟨px, y⟩) location).m_rotationAngle =
            (OnFingerDown e ⟨px, y⟩).m_rotationAngle := by
  have hdy : ((y - py : Int) : ℝ) < 0 := by
    have : y - py < 0 := by omega
    exact_mod_cast this
  have hnorm : ((Vector2.toFloat ((⟨px, y⟩ : ivec2).sub ⟨px, py⟩)).Normalized : Vector2 ℝ) =
      ⟨0, -1⟩ := by
    rw [Normalized_real]
    have hx : ((px - px : Int) : ℝ) = 0 := by simp
    simp only [hx]
    have hsq : Real.sqrt ((0 : ℝ) ^ 2 + ((y - py : Int) : ℝ) ^ 2) = -((y - py : Int) : ℝ) := by
      rw [zero_pow (by norm_num), zero_add, Real.sqrt_sq_eq_abs, abs_of_neg hdy]
    rw [hsq, zero_div, div_neg, div_self (ne_of_lt hdy)]
  have hmove : ∀ e2 : Engine ℝ Q, e2.m_pivotPoint = ⟨px, py⟩ →
      (OnFingerMove e2 ⟨px, y⟩ ⟨px, y⟩).m_rotationAngle = 0 := by
    intro e2 hp2
    rw [OnFingerMove_rotationAngle, hp2, hnorm]
    simp [CMath.acos]
  have hdown : OnFingerDown e ⟨px, y⟩ =
      OnFingerMove { e with m_scale := 3 / 2 } ⟨px, y⟩ ⟨px, y⟩ := rfl
  refine ⟨?_, ?_, ?_, fun location => ⟨rfl, rfl⟩⟩
  · rw [hdown]
    exact (OnFingerMove_keeps _ _ _).1
  · rw [hdown]
    exact hmove _ hp
  · rw [hdown, hmove e hp]
    exact hmove _ hp

/-! ## Auxiliary facts about rounding -/

theorem roundHalfEven_eq (y : ℝ) (n : Int) (h : |y - n| < 1 / 2) : roundHalfEven y = n := by
  rw [abs_lt] at h
  obtain ⟨h1, h2⟩ := h
  by_cases hy : (n : ℝ) ≤ y
  · have hfl : ⌊y⌋ = n := by
      rw [Int.floor_eq_iff]
      constructor <;> linarith
    simp only [roundHalfEven, hfl]
    rw [if_pos h2]
  · push_neg at hy
    have hfl : ⌊y⌋ = n - 1 := by
      rw [Int.floor_eq_iff]
      push_cast
      constructor <;> linarith
    simp only [roundHalfEven, hfl]
    push_cast
    rw [if_neg (by linarith), if_pos (by linarith)]
    ring

theorem le_roundHalfEven (y : ℝ) (m : Int) (h : (m : ℝ) ≤ y) : m ≤ roundHalfEven y := by
  have hfl : m ≤ ⌊y⌋ := Int.le_floor.mpr h
  unfold roundHalfEven
  split
  · exact hfl
  · split
    · omega
    · split <;> omega

theorem roundHalfEven_le (y : ℝ) (m : Int) (h : y ≤ (m : ℝ)) : roundHalfEven y ≤ m := by
  have hfl : ⌊y⌋ ≤ m := by exact_mod_cast (Int.floor_le y).trans h
  unfold roundHalfEven
  split
  · exact hfl
  · rename_i hlt
    have hne : (⌊y⌋ : ℝ) ≠ y := by
      intro heq
      apply hlt
      rw [heq]
      norm_num
    have hlt2 : (⌊y⌋ : ℝ) < m := lt_of_lt_of_le (lt_of_le_of_ne (Int.floor_le y) hne) h
    have hlt3 : ⌊y⌋ < m := by exact_mod_cast hlt2
    split
    · omega
    · split <;> omega

theorem log_two_eq (x : ℝ) (e : Int) (h1 : (2 : ℝ) ^ e ≤ x) (h2 : x < (2 : ℝ) ^ (e + 1)) :
    Int.log 2 x = e := by
  have hx : 0 < x := lt_of_lt_of_le (by positivity) h1
  have ha : e ≤ Int.log 2 x := (Int.zpow_le_iff_le_log (by norm_num) hx).mp (by exact_mod_cast h1)
  have hb : Int.log 2 x < e + 1 := (Int.lt_zpow_iff_log_lt (by norm_num) hx).mp (by exact_mod_cast h2)
  omega

theorem Format.round_eq (f : Format) (x r : ℝ) (e n : Int)
    (h1 : (2 : ℝ) ^ e ≤ |x|) (h2 : |x| < (2 : ℝ) ^ (e + 1)) (hmin : f.emin ≤ e)
    (hn : |x / (2 : ℝ) ^ (e - ((f.prec : Int) - 1)) - n| < 1 / 2)
    (hr : r = n * (2 : ℝ) ^ (e - ((f.prec : Int) - 1)))
    (hmax : |r| < (2 : ℝ) ^ (f.emax + 1)) : f.round x = IEEE.finite r := by
  have hulp : f.ulp x = (2 : ℝ) ^ (e - ((f.prec : Int) - 1)) := by
    rw [Format.ulp, log_two_eq |x| e h1 h2, max_eq_left hmin]
  simp only [Format.round]
  rw [hulp, roundHalfEven_eq _ n hn, ← hr, if_pos hmax]

theorem Format.round_zero (f : Format) : f.round 0 = IEEE.finite 0 := by
  have h0 : roundHalfEven (0 / f.ulp 0) = 0 := roundHalfEven_eq _ 0 (by norm_num)
  simp only [Format.round]
  rw [h0]
  simp only [Int.cast_zero, zero_mul, abs_zero]
  rw [if_pos (by positivity)]

theorem Format.round_bounds (f : Format) (x : ℝ) (k K : Int) (hp : 1 ≤ f.prec)
    (hk : f.emin ≤ k) (hK : K ≤ f.emax) (h1 : (2 : ℝ) ^ k ≤ x) (h2 : x ≤ (2 : ℝ) ^ K) :
    ∃ r, f.round x = IEEE.finite r ∧ (2 : ℝ) ^ k ≤ r ∧ r ≤ (2 : ℝ) ^ K := by
  have hx : 0 < x := lt_of_lt_of_le (by positivity) h1
  have habs : |x| = x := abs_of_pos hx
  have hke : k ≤ Int.log 2 x :=
    (Int.zpow_le_iff_le_log (by norm_num) hx).mp (by exact_mod_cast h1)
  have heK : Int.log 2 x ≤ K := by
    have hlt : x < (2 : ℝ) ^ (K + 1) :=
      lt_of_le_of_lt h2 (zpow_lt_zpow_right₀ (by norm_num) (by omega))
    have := (Int.lt_zpow_iff_log_lt (b := 2) (by norm_num) hx).mp (by exact_mod_cast hlt)
    omega
  have hlo : (2 : ℝ) ^ Int.log 2 x ≤ x := by
    exact_mod_cast Int.zpow_log_le_self (b := 2) (by norm_num) hx
  have hulp : f.ulp x = (2 : ℝ) ^ (Int.log 2 x - ((f.prec : Int) - 1)) := by
    rw [Format.ulp, habs, max_eq_left (by omega)]
  have hu : 0 < f.ulp x := by rw [hulp]; positivity
  obtain ⟨j1, hj1⟩ : ∃ j : Nat, (j : Int) = (f.prec : Int) - 1 := ⟨f.prec - 1, by omega⟩
  obtain ⟨j2, hj2⟩ : ∃ j : Nat, (j : Int) = K - Int.log 2 x + ((f.prec : Int) - 1) :=
    ⟨(K - Int.log 2 x + ((f.prec : Int) - 1)).toNat, Int.toNat_of_nonneg (by omega)⟩
  have hM1 : (((2 : Int) ^ j1 : Int) : ℝ) * f.ulp x = (2 : ℝ) ^ Int.log 2 x := by
    rw [hulp]
    push_cast
    rw [← zpow_natCast, hj1, ← zpow_add₀ (by norm_num)]
    congr 1
    ring
  have hM2 : (((2 : Int) ^ j2 : Int) : ℝ) * f.ulp x = (2 : ℝ) ^ K := by
    rw [hulp]
    push_cast
    rw [← zpow_natCast, hj2, ← zpow_add₀ (by norm_num)]
    congr 1
    ring
  have hn1 : (2 : Int) ^ j1 ≤ roundHalfEven (x / f.ulp x) := by
    apply le_roundHalfEven
    rw [le_div_iff₀ hu, hM1]
    exact hlo
  have hn2 : roundHalfEven (x / f.ulp x) ≤ (2 : Int) ^ j2 := by
    apply roundHalfEven_le
    rw [div_le_iff₀ hu, hM2]
    exact h2
  have hr1 : (2 : ℝ) ^ k ≤ (roundHalfEven (x / f.ulp x) : ℝ) * f.ulp x := by
    calc (2 : ℝ) ^ k ≤ (2 : ℝ) ^ Int.log 2 x := zpow_le_zpow_right₀ (by norm_num) hke
      _ = (((2 : Int) ^ j1 : Int) : ℝ) * f.ulp x := hM1.symm
      _ ≤ (roundHalfEven (x / f.ulp x) : ℝ) * f.ulp x :=
          mul_le_mul_of_nonneg_right (by exact_mod_cast hn1) hu.le
  have hr2 : (roundHalfEven (x / f.ulp x) : ℝ) * f.ulp x ≤ (2 : ℝ) ^ K := by
    calc (roundHalfEven (x / f.ulp x) : ℝ) * f.ulp x
        ≤ (((2 : Int) ^ j2 : Int) : ℝ) * f.ulp x :=
          mul_le_mul_of_nonneg_right (by exact_mod_cast hn2) hu.le
      _ = (2 : ℝ) ^ K := hM2
  refine ⟨(roundHalfEven (x / f.ulp x) : ℝ) * f.ulp x, ?_, hr1, hr2⟩
  simp only [Format.round]
  rw [if_pos]
  have hpos : 0 < (roundHalfEven (x / f.ulp x) : ℝ) * f.ulp x :=
    lt_of_lt_of_le (by positivity) hr1
  rw [abs_of_pos hpos]
  calc (roundHalfEven (x / f.ulp x) : ℝ) * f.ulp x ≤ (2 : ℝ) ^ K := hr2
    _ < (2 : ℝ) ^ (f.emax + 1) := zpow_lt_zpow_right₀ (by norm_num) (by omega)

/-! ## Auxiliary facts about the touch handlers over binary32 -/

/-- Normalising the zero vector in `float`: the length is 0, its reciprocal an infinity,
and zero times the infinity a NaN in both components. -/
theorem Normalized32_zero :
    Binary32.Normalized (Binary32.toFloat ⟨0, 0⟩) = ⟨IEEE.nan, IEEE.nan⟩ := by
  simp only [Binary32.Normalized, Binary32.Length, Binary32.toFloat, Int.cast_zero,
    Format.round_zero, IEEE.mul, IEEE.add, IEEE.sqrt, IEEE.div, mul_zero, add_zero,
    lt_self_iff_false, if_false, Real.sqrt_zero, if_true, one_ne_zero]

/-- Normalising `(0, -41)` in `float`: `1.0f / 41` rounds to `13094412 * 2 ^ (-29)`, and
41 times it rounds to `1 - 2 ^ (-24)`, not to 1. -/
theorem Normalized32_41 :
    Binary32.Normalized (Binary32.toFloat ⟨0, -41⟩) =
      ⟨IEEE.finite 0, IEEE.finite (-(16777215 / 16777216))⟩ := by
  have hy : binary32.round (-41) = IEEE.finite (-41) := by
    apply Format.round_eq binary32 (-41) (-41) 5 (-10747904) <;> norm_num [binary32]
  have hyy : binary32.round 1681 = IEEE.finite 1681 := by
    apply Format.round_eq binary32 1681 1681 10 13770752 <;> norm_num [binary32]
  have hsqrt : Real.sqrt 1681 = 41 := by
    rw [show (1681 : ℝ) = 41 ^ 2 by norm_num, Real.sqrt_sq (by norm_num)]
  have hlen : binary32.round 41 = IEEE.finite 41 := by
    apply Format.round_eq binary32 41 41 5 10747904 <;> norm_num [binary32]
  have hs : binary32.round (1 / 41) = IEEE.finite (3273603 / 134217728) := by
    apply Format.round_eq binary32 (1 / 41) (3273603 / 134217728) (-6) 13094412 <;>
      norm_num [binary32, abs_lt, abs_div]
  have hys : binary32.round (-(134217723 / 134217728)) =
      IEEE.finite (-(16777215 / 16777216)) := by
    apply Format.round_eq binary32 _ _ (-1) (-16777215) <;>
      norm_num [binary32, abs_lt, abs_div]
  simp only [Binary32.Normalized, Binary32.Length, Binary32.toFloat, Int.cast_zero,
    Int.cast_neg, Int.cast_ofNat, Format.round_zero, hy, IEEE.mul, IEEE.add, IEEE.sqrt,
    IEEE.div, mul_zero, zero_mul, zero_add]
  norm_num [hyy, hsqrt, hlen, hs, hys, IEEE.mul, Format.round_zero]

/-- Normalising `(0, -100)` in `float`: `1.0f / 100` rounds to `10737418 * 2 ^ (-30)`, and
100 times it rounds to 1. -/
theorem Normalized32_100 :
    Binary32.Normalized (Binary32.toFloat ⟨0, -100⟩) = ⟨IEEE.finite 0, IEEE.finite (-1)⟩ := by
  have hy : binary32.round (-100) = IEEE.finite (-100) := by
    apply Format.round_eq binary32 (-100) (-100) 6 (-13107200) <;> norm_num [binary32]
  have hyy : binary32.round 10000 = IEEE.finite 10000 := by
    apply Format.round_eq binary32 10000 10000 13 10240000 <;> norm_num [binary32]
  have hsqrt : Real.sqrt 10000 = 100 := by
    rw [show (10000 : ℝ) = 100 ^ 2 by norm_num, Real.sqrt_sq (by norm_num)]
  have hlen : binary32.round 100 = IEEE.finite 100 := by
    apply Format.round_eq binary32 100 100 6 13107200 <;> norm_num [binary32]
  have hs : binary32.round (1 / 100) = IEEE.finite (5368709 / 536870912) := by
    apply Format.round_eq binary32 (1 / 100) (5368709 / 536870912) (-7) 10737418 <;>
      norm_num [binary32, abs_lt, abs_div]
  have hys : binary32.round (-(134217725 / 134217728)) = IEEE.finite (-1) := by
    apply Format.round_eq binary32 _ _ (-1) (-16777216) <;>
      norm_num [binary32, abs_lt, abs_div]
  simp only [Binary32.Normalized, Binary32.Length, Binary32.toFloat, Int.cast_zero,
    Int.cast_neg, Int.cast_ofNat, Format.round_zero, hy, IEEE.mul, IEEE.add, IEEE.sqrt,
    IEEE.div, mul_zero, zero_mul, zero_add]
  norm_num [hyy, hsqrt, hlen, hs, hys, IEEE.mul, Format.round_zero]

/-- The angle `OnFingerMove` writes over binary32, in terms of the normalised vector from
the pivot to `newLocation`. -/
theorem OnFingerMove32_rotationAngle {Q : Type} (e : Engine IEEE Q)
    (oldLocation newLocation : ivec2) :
    (Binary32.OnFingerMove e oldLocation newLocation).m_rotationAngle =
      if IEEE.isPositive
          (Binary32.Normalized (Binary32.toFloat (newLocation.sub e.m_pivotPoint))).x then
        IEEE.neg (IEEE.convert binary32 (IEEE.div binary64 (IEEE.convert binary64
          (IEEE.mul binary32 (IEEE.acos binary32 (IEEE.neg
            (Binary32.Normalized (Binary32.toFloat (newLocation.sub e.m_pivotPoint))).y))
            (IEEE.finite 180))) Binary32.M_PI))
      else
        IEEE.convert binary32 (IEEE.div binary64 (IEEE.convert binary64
          (IEEE.mul binary32 (IEEE.acos binary32 (IEEE.neg
            (Binary32.Normalized (Binary32.toFloat (newLocation.sub e.m_pivotPoint))).y))
            (IEEE.finite 180))) Binary32.M_PI) := by
  unfold Binary32.OnFingerMove
  simp only []
  split <;> rfl

/-- `OnFingerMove` over binary32 leaves the scale and the pivot alone. -/
theorem OnFingerMove32_keeps {Q : Type} (e : Engine IEEE Q)
    (oldLocation newLocation : ivec2) :
    (Binary32.OnFingerMove e oldLocation newLocation).m_scale = e.m_scale ∧
      (Binary32.OnFingerMove e oldLocation newLocation).m_pivotPoint = e.m_pivotPoint := by
  unfold Binary32.OnFingerMove
  simp only []
  split <;> exact ⟨rfl, rfl⟩

/-- The constant `M_PI` is a finite `double` between 2 and 4. -/
theorem M_PI_bounds :
    ∃ r, Binary32.M_PI = IEEE.finite r ∧ (2 : ℝ) ≤ r ∧ r ≤ 4 := by
  obtain ⟨r, hr, h1, h2⟩ := Format.round_bounds binary64 Real.pi 1 2 (by decide) (by decide)
    (by decide) (by have := Real.pi_gt_three; norm_num; linarith)
    (by have := Real.pi_le_four; norm_num; linarith)
  exact ⟨r, hr, by norm_num at h1; linarith, by norm_num at h2; linarith⟩

/-- A press whose normalised direction is exactly `(0, -1)` gets the angle 0. -/
theorem angle32_of_up {Q : Type} (e : Engine IEEE Q) (oldLocation newLocation : ivec2)
    (h : Binary32.Normalized (Binary32.toFloat (newLocation.sub e.m_pivotPoint)) =
      ⟨IEEE.finite 0, IEEE.finite (-1)⟩) :
    (Binary32.OnFingerMove e oldLocation newLocation).m_rotationAngle = IEEE.finite 0 := by
  obtain ⟨r, hpi, hr2, _⟩ := M_PI_bounds
  have hr0 : r ≠ 0 := by linarith
  rw [OnFingerMove32_rotationAngle, h, hpi]
  simp [IEEE.isPositive, IEEE.neg, IEEE.acos, IEEE.mul, IEEE.convert, IEEE.div,
    Format.round_zero, hr0]

/-- The arc cosine of `1 - 2 ^ (-24)` is at least `2 ^ (-12)`. -/
theorem arccos_below_one_lower : (2 : ℝ) ^ (-12 : Int) ≤ Real.arccos (16777215 / 16777216) := by
  have hcos : Real.cos (Real.arccos (16777215 / 16777216)) = 16777215 / 16777216 :=
    Real.cos_arccos (by norm_num) (by norm_num)
  have hle := Real.one_sub_sq_div_two_le_cos (x := Real.arccos (16777215 / 16777216))
  rw [hcos] at hle
  have h0 := Real.arccos_nonneg (16777215 / 16777216)
  have h2 : (2 : ℝ) ^ (-12 : Int) = 1 / 4096 := by norm_num
  rw [h2]
  by_contra hlt
  push_neg at hlt
  nlinarith

/-- A press whose normalised direction is `(0, -(1 - 2 ^ (-24)))` gets a positive angle. -/
theorem angle32_of_almost_up {Q : Type} (e : Engine IEEE Q)
    (oldLocation newLocation : ivec2)
    (h : Binary32.Normalized (Binary32.toFloat (newLocation.sub e.m_pivotPoint)) =
      ⟨IEEE.finite 0, IEEE.finite (-(16777215 / 16777216))⟩) :
    ∃ r : ℝ, (Binary32.OnFingerMove e oldLocation newLocation).m_rotationAngle =
      IEEE.finite r ∧ 1 / 128 ≤ r ∧ r ≤ 512 := by
  obtain ⟨p, hpi, hp2, hp4⟩ := M_PI_bounds
  have hp0 : p ≠ 0 := by linarith
  have hhi : Real.arccos (16777215 / 16777216) ≤ (2 : ℝ) ^ (2 : Int) := by
    have := Real.arccos_le_pi (16777215 / 16777216)
    have := Real.pi_le_four
    norm_num
    linarith
  obtain ⟨r1, h1, h1lo, h1hi⟩ := Format.round_bounds binary32 _ (-12) 2 (by decide)
    (by decide) (by decide) arccos_below_one_lower hhi
  obtain ⟨r2, h2, h2lo, h2hi⟩ := Format.round_bounds binary32 (r1 * 180) (-5) 10 (by decide)
    (by decide) (by decide) (by norm_num at h1lo ⊢; linarith) (by norm_num at h1hi ⊢; linarith)
  obtain ⟨r3, h3, h3lo, h3hi⟩ := Format.round_bounds binary64 r2 (-5) 10 (by decide)
    (by decide) (by decide) h2lo h2hi
  have hq1 : (2 : ℝ) ^ (-7 : Int) ≤ r3 / p := by
    rw [le_div_iff₀ (by linarith)]
    norm_num at h3lo ⊢
    nlinarith
  have hq2 : r3 / p ≤ (2 : ℝ) ^ (9 : Int) := by
    rw [div_le_iff₀ (by linarith)]
    norm_num at h3hi ⊢
    nlinarith
  obtain ⟨r4, h4, h4lo, h4hi⟩ := Format.round_bounds binary64 (r3 / p) (-7) 9 (by decide)
    (by decide) (by decide) hq1 hq2
  obtain ⟨r5, h5, h5lo, h5hi⟩ := Format.round_bounds binary32 r4 (-7) 9 (by decide)
    (by decide) (by decide) h4lo h4hi
  refine ⟨r5, ?_, by norm_num at h5lo; linarith, by norm_num at h5hi; linarith⟩
  rw [OnFingerMove32_rotationAngle, h, hpi]
  have habs : |(16777215 / 16777216 : ℝ)| ≤ 1 := by
    rw [abs_of_pos (by norm_num)]
    norm_num
  simp only [IEEE.isPositive, IEEE.neg, neg_neg, lt_self_iff_false, decide_False,
    Bool.false_eq_true, if_false, IEEE.acos, habs, if_true, h1, IEEE.mul, h2, IEEE.convert,
    h3, IEEE.div, hp0, h4, h5]

/-- C3, counterexample: an engine with pivot `(160, 240)` and `RotationAngle` 0, as the
constructor leaves it.  `OnFingerMove((160, 240), (160, 240))`, whose `newLocation` is the
pivot, writes a NaN over the 0: `RotationAngle` is not left at its prior value. -/
theorem OnFingerMove_at_pivot_counterexample :
    (Binary32.engineAt ⟨160, 240⟩).m_rotationAngle = IEEE.finite 0 ∧
      (Binary32.OnFingerMove (Binary32.engineAt ⟨160, 240⟩)
        ⟨160, 240⟩ ⟨160, 240⟩).m_rotationAngle = IEEE.nan ∧
      (Binary32.OnFingerMove (Binary32.engineAt ⟨160, 240⟩)
        ⟨160, 240⟩ ⟨160, 240⟩).m_rotationAngle ≠
          (Binary32.engineAt ⟨160, 240⟩).m_rotationAngle := by
  have hsub : ((⟨160, 240⟩ : ivec2).sub (Binary32.engineAt ⟨160, 240⟩).m_pivotPoint) =
      ⟨0, 0⟩ := by decide
  have hnan : (Binary32.OnFingerMove (Binary32.engineAt ⟨160, 240⟩)
      ⟨160, 240⟩ ⟨160, 240⟩).m_rotationAngle = IEEE.nan := by
    rw [OnFingerMove32_rotationAngle, hsub, Normalized32_zero]
    simp [IEEE.isPositive, IEEE.neg, IEEE.acos, IEEE.mul, IEEE.convert, IEEE.div]
  refine ⟨rfl, hnan, ?_⟩
  rw [hnan]
  intro h
  cases h

/-- C3, amended: over binary32 `OnFingerMove` has no special case for `newLocation` equal
to the pivot.  For every prior state and every `oldLocation` it overwrites `RotationAngle`
with a NaN (the zero-length direction normalises to NaN components, which `acos` and the
scaling hand on), so a `RotationAngle` that was not a NaN is altered; the scale and the
pivot are left alone. -/
theorem OnFingerMove_at_pivot_overwrites {Q : Type} (e : Engine IEEE Q) (oldLocation : ivec2) :
    (Binary32.OnFingerMove e oldLocation e.m_pivotPoint).m_rotationAngle = IEEE.nan ∧
      (e.m_rotationAngle ≠ IEEE.nan →
        (Binary32.OnFingerMove e oldLocation e.m_pivotPoint).m_rotationAngle ≠
          e.m_rotationAngle) ∧
      (Binary32.OnFingerMove e oldLocation e.m_pivotPoint).m_scale = e.m_scale ∧
      (Binary32.OnFingerMove e oldLocation e.m_pivotPoint).m_pivotPoint = e.m_pivotPoint := by
  have hsub : e.m_pivotPoint.sub e.m_pivotPoint = ⟨0, 0⟩ := by
    simp [Vector2.sub]
  have hnan : (Binary32.OnFingerMove e oldLocation e.m_pivotPoint).m_rotationAngle =
      IEEE.nan := by
    rw [OnFingerMove32_rotationAngle, hsub, Normalized32_zero]
    simp [IEEE.isPositive, IEEE.neg, IEEE.acos, IEEE.mul, IEEE.convert, IEEE.div]
  refine ⟨hnan, ?_, (OnFingerMove32_keeps _ _ _).1, (OnFingerMove32_keeps _ _ _).2⟩
  intro hx
  rw [hnan]
  exact fun h => hx h.symm

/-- The three assignments of the touch handlers over binary32, at any location. -/
theorem OnFingerDown32_Up {Q : Type} (f : Engine IEEE Q) (location other : ivec2) :
    (Binary32.OnFingerDown f location).m_scale = IEEE.finite (3 / 2) ∧
      (Binary32.OnFingerDown f location).m_rotationAngle =
        (Binary32.OnFingerMove f location location).m_rotationAngle ∧
      (Binary32.OnFingerUp (Binary32.OnFingerDown f location) other).m_scale = IEEE.finite 1 ∧
      (Binary32.OnFingerUp (Binary32.OnFingerDown f location) other).m_rotationAngle =
        (Binary32.OnFingerDown f location).m_rotationAngle := by
  have hdown : Binary32.OnFingerDown f location =
      Binary32.OnFingerMove { f with m_scale := IEEE.finite (3 / 2) } location location := rfl
  refine ⟨?_, ?_, rfl, rfl⟩
  · rw [hdown]
    exact (OnFingerMove32_keeps _ _ _).1
  · rw [hdown, OnFingerMove32_rotationAngle, OnFingerMove32_rotationAngle]

/-- C10, amended: `OnFingerDown(location)` sets `Scale` to 1.5 and `RotationAngle` to the
angle `OnFingerMove(location, location)` gives, and a following `OnFingerUp` at any
location sets `Scale` to 1 and leaves `RotationAngle` as it was; this holds over binary32
at every location.  For a location `(px, y)` straight above the pivot `(px, py)`
(`y < py`) that angle is 0 with the arithmetic read over the reals; over binary32 it is
exactly 0 for the location 100 pixels straight above the pivot, and not 0 for the
location 41 pixels straight above it. -/
theorem OnFingerDown_straight_above {Q R : Type} (e : Engine ℝ Q) (f : Engine IEEE R)
    (px py y : Int) (hp : e.m_pivotPoint = ⟨px, py⟩) (hy : y < py) :
    ((OnFingerDown e ⟨px, y⟩).m_scale = 3 / 2 ∧
      (OnFingerDown e ⟨px, y⟩).m_rotationAngle = 0 ∧
      (OnFingerDown e ⟨px, y⟩).m_rotationAngle =
        (OnFingerMove e ⟨px, y⟩ ⟨px, y⟩).m_rotationAngle ∧
      ∀ location : ivec2,
        (OnFingerUp (OnFingerDown e ⟨px, y⟩) location).m_scale = 1 ∧
          (OnFingerUp (OnFingerDown e ⟨px, y⟩) location).m_rotationAngle =
            (OnFingerDown e ⟨px, y⟩).m_rotationAngle) ∧
    (∀ location other : ivec2,
      (Binary32.OnFingerDown f location).m_scale = IEEE.finite (3 / 2) ∧
        (Binary32.OnFingerDown f location).m_rotationAngle =
          (Binary32.OnFingerMove f location location).m_rotationAngle ∧
        (Binary32.OnFingerUp (Binary32.OnFingerDown f location) other).m_scale =
          IEEE.finite 1 ∧
        (Binary32.OnFingerUp (Binary32.OnFingerDown f location) other).m_rotationAngle =
          (Binary32.OnFingerDown f location).m_rotationAngle) ∧
    (Binary32.OnFingerDown f ⟨f.m_pivotPoint.x, f.m_pivotPoint.y - 100⟩).m_rotationAngle =
      IEEE.finite 0 ∧
    (Binary32.OnFingerDown f ⟨f.m_pivotPoint.x, f.m_pivotPoint.y - 41⟩).m_rotationAngle ≠
      IEEE.finite 0 := by
  refine ⟨OnFingerDown_straight_above_exact e px py y hp hy,
    fun location other => OnFingerDown32_Up f location other, ?_, ?_⟩
  · rw [(OnFingerDown32_Up f _ ⟨0, 0⟩).2.1]
    apply angle32_of_up
    have hsub : (⟨f.m_pivotPoint.x, f.m_pivotPoint.y - 100⟩ : ivec2).sub f.m_pivotPoint =
        ⟨0, -100⟩ := by
      simp only [Vector2.sub, sub_self, Vector2.mk.injEq, true_and]
      omega
    rw [hsub]
    exact Normalized32_100
  · have hsub : (⟨f.m_pivotPoint.x, f.m_pivotPoint.y - 41⟩ : ivec2).sub f.m_pivotPoint =
        ⟨0, -41⟩ := by
      simp only [Vector2.sub, sub_self, Vector2.mk.injEq, true_and]
      omega
    obtain ⟨r, hr, hlo, _⟩ := angle32_of_almost_up f
      ⟨f.m_pivotPoint.x, f.m_pivotPoint.y - 41⟩ ⟨f.m_pivotPoint.x, f.m_pivotPoint.y - 41⟩
      (by rw [hsub]; exact Normalized32_41)
    rw [(OnFingerDown32_Up f _ ⟨0, 0⟩).2.1, hr]
    intro h
    cases h
    norm_num at hlo

/-- C10, witness: `Initialize(320, 480)` on a fresh engine gives the pivot `(160, 240)`;
then `OnFingerDown((160, 140))` gives `RotationAngle = 0` and `Scale = 1.5`, over the
reals and over binary32, and an `OnFingerUp` sets `Scale` back to 1. -/
theorem OnFingerDown_straight_above_witness :
    ∃ e1, Initialize (freshEngine ℝ) 320 480 = some e1 ∧
      e1.m_pivotPoint = ⟨160, 240⟩ ∧ (140 : Int) < 240 ∧
      (OnFingerDown e1 ⟨160, 140⟩).m_rotationAngle = 0 ∧
      (OnFingerDown e1 ⟨160, 140⟩).m_scale = 3 / 2 ∧
      (OnFingerUp (OnFingerDown e1 ⟨160, 140⟩) ⟨10, 20⟩).m_scale = 1 ∧
      (Binary32.OnFingerDown (Binary32.engineAt ⟨160, 240⟩) ⟨160, 140⟩).m_rotationAngle =
        IEEE.finite 0 ∧
      (Binary32.OnFingerDown (Binary32.engineAt ⟨160, 240⟩) ⟨160, 140⟩).m_scale =
        IEEE.finite (3 / 2) ∧
      (Binary32.OnFingerUp (Binary32.OnFingerDown (Binary32.engineAt ⟨160, 240⟩) ⟨160, 140⟩)
        ⟨10, 20⟩).m_scale = IEEE.finite 1 := by
  obtain ⟨vs, _, _, hinit⟩ := Initialize_ok (freshEngine ℝ) 320 480
  refine ⟨_, hinit, ?_⟩
  have hp : ({ freshEngine ℝ with
      m_pivotPoint := ⟨Int.tdiv 320 2, Int.tdiv 480 2⟩
      m_coneVertices := vs
      m_coneIndices := coneIndexData
      m_bodyIndexCount := 120
      m_diskIndexCount := 120 } : Engine ℝ (QuatExpr ℝ)).m_pivotPoint = ⟨160, 240⟩ := by
    show (⟨Int.tdiv 320 2, Int.tdiv 480 2⟩ : ivec2) = ⟨160, 240⟩
    decide
  have h := OnFingerDown_straight_above _ (Binary32.engineAt ⟨160, 240⟩) 160 240 140 hp
    (by decide)
  exact ⟨hp, by decide, h.1.2.1, h.1.1, (h.1.2.2.2 ⟨10, 20⟩).1, h.2.2.1,
    (h.2.1 ⟨160, 140⟩ ⟨10, 20⟩).1, (h.2.1 ⟨160, 140⟩ ⟨10, 20⟩).2.2.1⟩

/-- C10, counterexample: pivot `(160, 240)` and the location `(160, 199)`, 41 pixels
straight above it.  In `float` the normalised direction has `y = -(1 - 2 ^ (-24))`, not
`-1`, and `OnFingerDown((160, 199))` sets `RotationAngle` to a number that is at least
`1/128`, not to 0. -/
theorem OnFingerDown_straight_above_counterexample :
    (199 : Int) < 240 ∧
      (Binary32.Normalized (Binary32.toFloat ((⟨160, 199⟩ : ivec2).sub ⟨160, 240⟩))) =
        ⟨IEEE.finite 0, IEEE.finite (-(16777215 / 16777216))⟩ ∧
      (∃ r : ℝ, (Binary32.OnFingerDown (Binary32.engineAt ⟨160, 240⟩)
          ⟨160, 199⟩).m_rotationAngle = IEEE.finite r ∧ 1 / 128 ≤ r ∧ r ≤ 512) ∧
      (Binary32.OnFingerDown (Binary32.engineAt ⟨160, 240⟩) ⟨160, 199⟩).m_rotationAngle ≠
        IEEE.finite 0 := by
  have hsub : ((⟨160, 199⟩ : ivec2).sub ⟨160, 240⟩) = ⟨0, -41⟩ := by decide
  have hnorm : (Binary32.Normalized (Binary32.toFloat ((⟨160, 199⟩ : ivec2).sub ⟨160, 240⟩))) =
      ⟨IEEE.finite 0, IEEE.finite (-(16777215 / 16777216))⟩ := by
    rw [hsub]
    exact Normalized32_41
  have hdown : Binary32.OnFingerDown (Binary32.engineAt ⟨160, 240⟩) ⟨160, 199⟩ =
      Binary32.OnFingerMove { Binary32.engineAt ⟨160, 240⟩ with m_scale := IEEE.finite (3 / 2) }
        ⟨160, 199⟩ ⟨160, 199⟩ := rfl
  obtain ⟨r, hr, hlo, hhi⟩ := angle32_of_almost_up
    { Binary32.engineAt ⟨160, 240⟩ with m_scale := IEEE.finite (3 / 2) } ⟨160, 199⟩ ⟨160, 199⟩
    hnorm
  refine ⟨by decide, hnorm, ⟨r, by rw [hdown]; exact hr, hlo, hhi⟩, ?_⟩
  rw [hdown, hr]
  intro h
  cases h
  norm_num at hlo

end RenderingEngine2
